import Mathlib

/-!
Shallow embedding of the mini-chess (Silverman 4x4) repository:
`src/models/piece.py`, `src/models/move.py`, `src/models/board.py` and
`src/agent.py`, together with theorems settling the frozen claims about
the natural-language specification.
-/

namespace MiniChess

/-- `PieceColor` enumeration from `models/piece.py` (`BLACK = 0`, `WHITE = 1`,
`EMPTY = None`). -/
inductive PieceColor where
  | black
  | white
  | empty
deriving DecidableEq, Repr

/-- `PieceType` enumeration from `models/piece.py` (`PAWN`, `ROOK`, `QUEEN`,
`KING`, `EMPTY`). -/
inductive PieceType where
  | pawn
  | rook
  | queen
  | king
  | empty
deriving DecidableEq, Repr

/-- `Piece` from `models/piece.py`: an immutable pair of a color and a type. -/
structure Piece where
  piece_color : PieceColor
  piece_type : PieceType
deriving DecidableEq, Repr

/-- The `Piece(PieceColor.EMPTY, PieceType.EMPTY)` sentinel used by the board
for unoccupied squares. -/
def empty_piece : Piece := ⟨PieceColor.empty, PieceType.empty⟩

/-- `PIECE_VALUES` from `models/piece.py`. -/
def PIECE_VALUES : PieceType → Int
  | PieceType.empty => 0
  | PieceType.king => 1000
  | PieceType.queen => 9
  | PieceType.rook => 5
  | PieceType.pawn => 1

/-- `Piece.value` property from `models/piece.py`. -/
def Piece.value (p : Piece) : Int := PIECE_VALUES p.piece_type

/-- `pawn_displacements` from `models/piece.py`: forward plus the two forward
diagonals, with White moving toward smaller row indices. -/
def pawn_displacements (color : PieceColor) : List (Int × Int) :=
  let direction : Int := if color = PieceColor.white then -1 else 1
  [(direction, 0), (direction, -1), (direction, 1)]

/-- First-occurrence deduplication, the behaviour of Python's
`list(dict.fromkeys(...))` used by `__ray_displacements`. -/
def dedup_first {α : Type} [DecidableEq α] (l : List α) : List α :=
  l.foldl (fun acc a => if a ∈ acc then acc else acc ++ [a]) []

/-- `__ray_displacements` from `models/piece.py`: every direction stepped from
1 to `max_range`, duplicates removed keeping first occurrences. -/
def ray_displacements (directions : List (Int × Int)) (max_range : Nat) :
    List (Int × Int) :=
  dedup_first <| directions.flatMap fun d =>
    (List.range max_range).map fun step => (d.1 * (step + 1 : Nat), d.2 * (step + 1 : Nat))

/-- `rook_displacements` from `models/piece.py`. -/
def rook_displacements (max_range : Nat) : List (Int × Int) :=
  ray_displacements [(1, 0), (-1, 0), (0, 1), (0, -1)] max_range

/-- `queen_displacements` from `models/piece.py`. -/
def queen_displacements (max_range : Nat) : List (Int × Int) :=
  ray_displacements
    [(1, 0), (-1, 0), (0, 1), (0, -1), (1, 1), (-1, -1), (1, -1), (-1, 1)] max_range

/-- `king_displacements` from `models/piece.py`. -/
def king_displacements : List (Int × Int) :=
  [(-1, -1), (-1, 0), (-1, 1), (0, -1), (0, 1), (1, -1), (1, 0), (1, 1)]

/-- `BoardConfig.SIZE` from `config.py`. -/
def SIZE : Nat := 4

/-- `MAX_RANGE = BoardConfig.SIZE - 1` from `models/piece.py`. -/
def MAX_RANGE : Nat := SIZE - 1

/-- `PIECE_DISPLACEMENTS` lookup from `models/piece.py`; keys absent from the
dictionary (any key whose color or type is `EMPTY`) give `[]`, matching
`PIECE_DISPLACEMENTS.get(key, [])`. -/
def Piece.displacements (p : Piece) : List (Int × Int) :=
  match p.piece_color, p.piece_type with
  | PieceColor.white, PieceType.pawn => pawn_displacements PieceColor.white
  | PieceColor.black, PieceType.pawn => pawn_displacements PieceColor.black
  | PieceColor.white, PieceType.rook => rook_displacements MAX_RANGE
  | PieceColor.black, PieceType.rook => rook_displacements MAX_RANGE
  | PieceColor.white, PieceType.queen => queen_displacements MAX_RANGE
  | PieceColor.black, PieceType.queen => queen_displacements MAX_RANGE
  | PieceColor.white, PieceType.king => king_displacements
  | PieceColor.black, PieceType.king => king_displacements
  | _, _ => []

/-- A board square: `(row, col)`, each in `[0, 4)`. -/
abbrev Pos := Fin 4 × Fin 4

/-- Bounds check `0 <= n < board_size` of `Piece.possible_moves`, returning
the in-range coordinate. -/
def bounded (n : Int) : Option (Fin 4) :=
  if h : 0 ≤ n ∧ n < 4 then
    some ⟨n.toNat, by omega⟩
  else none

/-- Packaging of a pair of in-bounds coordinates into a square. -/
def to_pos (p : Int × Int) : Option Pos :=
  match bounded p.1, bounded p.2 with
  | some r, some c => some (r, c)
  | _, _ => none

/-- `Piece.possible_moves` from `models/piece.py`: all displacement targets
within board bounds.  The Python function returns a set built from the
displacement list; the displacement lists are duplicate-free and translation
is injective, so the set's *membership* is modelled exactly by the
duplicate-free list of in-bounds targets, written here in template order.
The program iterates that set in CPython hash-table order, which generally
differs from template order; the iteration order is modelled separately by
`cpython_set_order` (see claim C1), and every consumer proved against this
list is order-insensitive. -/
def Piece.possible_moves (p : Piece) (position : Pos) : List Pos :=
  p.displacements.filterMap fun d =>
    to_pos ((position.1 : Int) + d.1, (position.2 : Int) + d.2)

/-- `Move` from `models/move.py`: moving piece, source and destination squares
and the (optional) captured piece.  The dataclass defaults `captured_piece` to
`None`; every `Move` built by the board records the destination's occupant
(possibly the Empty sentinel piece), modelled as `some target`. -/
structure Move where
  piece : Piece
  from_pos : Pos
  to_pos : Pos
  captured_piece : Option Piece
deriving DecidableEq, Repr

/-- The board grid: the `size x size` numpy object array of `models/board.py`,
as a total mapping from in-bounds squares to pieces. -/
abbrev Grid := Pos → Piece

/-- Row-major enumeration of all squares, the iteration order of the
`for r in range(self.size): for c in range(self.size)` loops in
`models/board.py`. -/
def positions : List Pos :=
  (List.finRange 4).flatMap fun r => (List.finRange 4).map fun c => (r, c)

/-- Lookup of a possibly out-of-range integer coordinate pair.  Every lookup
performed by the board functions is in range (see the comments at the call
sites), so the out-of-range default never matters. -/
def grid_at (g : Grid) (p : Int × Int) : Piece :=
  match to_pos p with
  | some q => g q
  | none => empty_piece

/-- Direction component `0 if to == from else (1 if to > from else -1)`
computed at the top of `Board._is_path_clear`. -/
def sign_step (a b : Int) : Int :=
  if b = a then 0 else if a < b then 1 else -1

/-- The `while (r, c) != (to_r, to_c)` loop of `Board._is_path_clear`,
with explicit fuel.  Both callers pass source/destination pairs lying on a
common row, column or diagonal of the 4x4 board, so the loop reaches the
destination in at most 3 steps and the fuel of 8 supplied by `is_path_clear`
is never exhausted. -/
def path_clear_loop (g : Grid) (tr tc dr dc : Int) : Nat → Int → Int → Bool
  | 0, _, _ => true
  | fuel + 1, r, c =>
    if r = tr ∧ c = tc then true
    else if (grid_at g (r, c)).piece_type ≠ PieceType.empty then false
    else path_clear_loop g tr tc dr dc fuel (r + dr) (c + dc)

/-- `Board._is_path_clear` from `models/board.py`. -/
def is_path_clear (g : Grid) (from_r from_c to_r to_c : Int) : Bool :=
  let dr := sign_step from_r to_r
  let dc := sign_step from_c to_c
  path_clear_loop g to_r to_c dr dc 8 (from_r + dr) (from_c + dc)

/-- `Board._is_valid_pawn_move` from `models/board.py`. -/
def is_valid_pawn_move (piece target : Piece) (from_pos to_pos : Pos) : Bool :=
  if (to_pos.2 : Int) - (from_pos.2 : Int) = 0 then
    target.piece_type = PieceType.empty
  else
    target.piece_type ≠ PieceType.empty ∧ target.piece_color ≠ piece.piece_color

/-- `Board._is_valid_rook_move` from `models/board.py`. -/
def is_valid_rook_move (g : Grid) (piece target : Piece) (from_pos to_pos : Pos) : Bool :=
  if target.piece_color = piece.piece_color then false
  else is_path_clear g from_pos.1 from_pos.2 to_pos.1 to_pos.2

/-- `Board._is_valid_queen_move` from `models/board.py`. -/
def is_valid_queen_move (g : Grid) (piece target : Piece) (from_pos to_pos : Pos) : Bool :=
  if target.piece_color = piece.piece_color then false
  else is_path_clear g from_pos.1 from_pos.2 to_pos.1 to_pos.2

/-- `Board._is_valid_king_move` from `models/board.py`. -/
def is_valid_king_move (piece target : Piece) : Bool :=
  target.piece_color ≠ piece.piece_color

/-- `Board._is_valid_piece_move` dispatch from `models/board.py`. -/
def is_valid_piece_move (g : Grid) (piece target : Piece) (from_pos to_pos : Pos) : Bool :=
  match piece.piece_type with
  | PieceType.pawn => is_valid_pawn_move piece target from_pos to_pos
  | PieceType.rook => is_valid_rook_move g piece target from_pos to_pos
  | PieceType.queen => is_valid_queen_move g piece target from_pos to_pos
  | PieceType.king => is_valid_king_move piece target
  | _ => false

/-- `Board._can_pawn_attack` from `models/board.py`. -/
def can_pawn_attack (piece : Piece) (from_pos to_pos : Pos) : Bool :=
  let forward : Int := if piece.piece_color = PieceColor.white then -1 else 1
  let dr := (to_pos.1 : Int) - (from_pos.1 : Int)
  let dc := (to_pos.2 : Int) - (from_pos.2 : Int)
  dr = forward ∧ dc ≠ 0 ∧ dc.natAbs = 1

/-- `Board._can_rook_attack` from `models/board.py`. -/
def can_rook_attack (g : Grid) (piece : Piece) (from_pos to_pos : Pos) : Bool :=
  if to_pos ∉ piece.possible_moves from_pos then false
  else is_path_clear g from_pos.1 from_pos.2 to_pos.1 to_pos.2

/-- `Board._can_queen_attack` from `models/board.py`. -/
def can_queen_attack (g : Grid) (piece : Piece) (from_pos to_pos : Pos) : Bool :=
  if to_pos ∉ piece.possible_moves from_pos then false
  else is_path_clear g from_pos.1 from_pos.2 to_pos.1 to_pos.2

/-- `Board._can_king_attack` from `models/board.py`. -/
def can_king_attack (piece : Piece) (from_pos to_pos : Pos) : Bool :=
  to_pos ∈ piece.possible_moves from_pos

/-- `Board._can_attack` dispatch from `models/board.py`. -/
def can_attack (g : Grid) (from_pos to_pos : Pos) (piece : Piece) : Bool :=
  match piece.piece_type with
  | PieceType.pawn => can_pawn_attack piece from_pos to_pos
  | PieceType.rook => can_rook_attack g piece from_pos to_pos
  | PieceType.queen => can_queen_attack g piece from_pos to_pos
  | PieceType.king => can_king_attack piece from_pos to_pos
  | _ => false

/-- `Board._get_opponent_color` from `models/board.py`. -/
def get_opponent_color (color : PieceColor) : PieceColor :=
  if color = PieceColor.white then PieceColor.black else PieceColor.white

/-- `Board._is_position_threatened` from `models/board.py`: scan the whole
grid for an opposing piece that can attack the given square. -/
def is_position_threatened (g : Grid) (pos : Pos) (by_color : PieceColor) : Bool :=
  let opponent_color := get_opponent_color by_color
  positions.any fun p =>
    let piece := g p
    ¬ piece.piece_type = PieceType.empty ∧ piece.piece_color = opponent_color ∧
      can_attack g p pos piece

/-- `Board._find_king_position` from `models/board.py`: first king of the
color in row-major scan order. -/
def find_king_position (g : Grid) (color : PieceColor) : Option Pos :=
  positions.find? fun p =>
    (g p).piece_type = PieceType.king ∧ (g p).piece_color = color

/-- `Board.is_check` from `models/board.py`: `False` when no king is found. -/
def is_check (g : Grid) (color : PieceColor) : Bool :=
  match find_king_position g color with
  | none => false
  | some king_pos => is_position_threatened g king_pos color

/-- The grid produced by `Board.apply_move`: the source square is cleared
first and the destination square is then set to the moving piece, so when the
two squares coincide the destination assignment wins, exactly as in the
numpy-array version. -/
def apply_move_grid (g : Grid) (move : Move) : Grid := fun p =>
  if p = move.to_pos then move.piece
  else if p = move.from_pos then empty_piece
  else g p

/-- `Board._does_move_leave_king_in_check` from `models/board.py`. -/
def does_move_leave_king_in_check (g : Grid) (move : Move) (color : PieceColor) : Bool :=
  is_check (apply_move_grid g move) color

/-- `Board.get_valid_moves_for_color` from `models/board.py`: row-major scan
over the mover's pieces, destinations in the order of
`Piece.possible_moves`, filtered by the per-kind move rules and the
self-check filter.  The `_is_within_bounds` test of the source is always true
here because `possible_moves` already clips to the board. -/
def get_valid_moves_for_color (g : Grid) (color : PieceColor) : List Move :=
  positions.flatMap fun from_pos =>
    let piece := g from_pos
    if piece.piece_type = PieceType.empty ∨ ¬ piece.piece_color = color then []
    else
      (piece.possible_moves from_pos).flatMap fun to_pos =>
        let target := g to_pos
        if ¬ is_valid_piece_move g piece target from_pos to_pos then []
        else
          let move : Move := ⟨piece, from_pos, to_pos, some target⟩
          if does_move_leave_king_in_check g move color then [] else [move]

/-- `Board` from `models/board.py`: the grid together with the game-state
attributes initialized by `__init__` and (re)computed only by
`compute_game_state`.  The Python dictionaries are keyed by `WHITE`/`BLACK`;
they are modelled as total functions whose value at `EMPTY` stays at the
`__init__` default. -/
structure Board where
  grid : Grid
  valid_moves : PieceColor → List Move
  threatened_pieces : PieceColor → List Piece
  threat_scores : PieceColor → Int
  check_status : PieceColor → Bool
  checkmate_status : PieceColor → Bool
  stalemate_status : PieceColor → Bool

/-- `Board.__init__` from `models/board.py`: stores the grid and initializes
every game-state attribute to its empty default (`[]`, `0`, `False`).
`compute_game_state` is a separate, explicit step. -/
def Board.init (g : Grid) : Board where
  grid := g
  valid_moves := fun _ => []
  threatened_pieces := fun _ => []
  threat_scores := fun _ => 0
  check_status := fun _ => false
  checkmate_status := fun _ => false
  stalemate_status := fun _ => false

/-- The `move.captured_piece.piece_type != PieceType.EMPTY` test of
`Board.compute_game_state` (board moves always record `some` captured
piece; `none` cannot reach this test in the source). -/
def is_capture (move : Move) : Bool :=
  match move.captured_piece with
  | some p => ¬ p.piece_type = PieceType.empty
  | none => false

/-- Destination squares of capturing moves, collected into the
`threatened_*_positions` sets of `Board.compute_game_state`; the Python `set`
is modelled as a first-occurrence-deduplicated list (only value sums derived
from it are consumed). -/
def captured_positions (moves : List Move) : List Pos :=
  dedup_first ((moves.filter is_capture).map fun move => move.to_pos)

/-- `Board.compute_game_state` from `models/board.py`: recomputes valid
moves, check/checkmate/stalemate status, threatened pieces and threat scores
from the grid. -/
def Board.compute_game_state (b : Board) : Board :=
  let valid_moves_white := get_valid_moves_for_color b.grid PieceColor.white
  let valid_moves_black := get_valid_moves_for_color b.grid PieceColor.black
  let is_check_white := is_check b.grid PieceColor.white
  let is_check_black := is_check b.grid PieceColor.black
  let threatened_black_positions := captured_positions valid_moves_white
  let threatened_white_positions := captured_positions valid_moves_black
  let threatened_white := threatened_white_positions.map b.grid
  let threatened_black := threatened_black_positions.map b.grid
  { b with
    valid_moves := fun c =>
      match c with
      | PieceColor.white => valid_moves_white
      | PieceColor.black => valid_moves_black
      | PieceColor.empty => []
    check_status := fun c =>
      match c with
      | PieceColor.white => is_check_white
      | PieceColor.black => is_check_black
      | PieceColor.empty => false
    checkmate_status := fun c =>
      match c with
      | PieceColor.white => is_check_white && valid_moves_white.length = 0
      | PieceColor.black => is_check_black && valid_moves_black.length = 0
      | PieceColor.empty => false
    stalemate_status := fun c =>
      match c with
      | PieceColor.white => !is_check_white && valid_moves_white.length = 0
      | PieceColor.black => !is_check_black && valid_moves_black.length = 0
      | PieceColor.empty => false
    threatened_pieces := fun c =>
      match c with
      | PieceColor.white => threatened_white
      | PieceColor.black => threatened_black
      | PieceColor.empty => []
    threat_scores := fun c =>
      match c with
      | PieceColor.white => (threatened_white.map Piece.value).sum
      | PieceColor.black => (threatened_black.map Piece.value).sum
      | PieceColor.empty => 0 }

/-- `Board.apply_move` from `models/board.py`: a brand-new `Board` built from
the updated grid; its game-state attributes are the `__init__` defaults
because `apply_move` does not call `compute_game_state`. -/
def Board.apply_move (b : Board) (move : Move) : Board :=
  Board.init (apply_move_grid b.grid move)

/-- `INITIAL_BOARD_STATE` from `models/board.py`. -/
def initial_grid : Grid := fun p =>
  match p.1.val, p.2.val with
  | 0, 0 => ⟨PieceColor.black, PieceType.rook⟩
  | 0, 1 => ⟨PieceColor.black, PieceType.queen⟩
  | 0, 2 => ⟨PieceColor.black, PieceType.king⟩
  | 0, 3 => ⟨PieceColor.black, PieceType.rook⟩
  | 1, _ => ⟨PieceColor.black, PieceType.pawn⟩
  | 2, _ => ⟨PieceColor.white, PieceType.pawn⟩
  | 3, 0 => ⟨PieceColor.white, PieceType.rook⟩
  | 3, 1 => ⟨PieceColor.white, PieceType.queen⟩
  | 3, 2 => ⟨PieceColor.white, PieceType.king⟩
  | _, _ => ⟨PieceColor.white, PieceType.rook⟩

/-- Python float scoring values used by `agent.py`: `-math.inf`, finite
integer scores, `math.inf`. -/
inductive Score where
  | negInf
  | fin (n : Int)
  | posInf
deriving DecidableEq, Repr

/-- Strict `<` on scores, matching IEEE comparison of `-inf`, finite values
and `inf`. -/
def Score.lt : Score → Score → Bool
  | Score.negInf, Score.negInf => false
  | Score.negInf, _ => true
  | Score.fin _, Score.negInf => false
  | Score.fin a, Score.fin b => a < b
  | Score.fin _, Score.posInf => true
  | Score.posInf, _ => false

/-- Non-strict `<=` on scores. -/
def Score.le (a b : Score) : Bool := ! Score.lt b a

/-- Python `max` on scores. -/
def Score.max (a b : Score) : Score := if Score.lt a b then b else a

/-- Python `min` on scores. -/
def Score.min (a b : Score) : Score := if Score.lt b a then b else a

/-- Modelled from the spec: `SILVERMAN_DEFAULT_START_SCORES` is imported by
`agent.py` from `models.piece` but is defined nowhere under the sources.  The
spec's evaluator section describes the corresponding term as
`startingMaterial(color)`, the total material value of a color's pieces on
the canonical Silverman start (two rooks, one queen, one king, four pawns):
`5 + 5 + 9 + 1000 + 4 * 1 = 1023` for each color. -/
def SILVERMAN_DEFAULT_START_SCORES (_color : PieceColor) : Int := 1023

/-- `MinimaxAgent` from `agent.py`: search depth and assigned color. -/
structure MinimaxAgent where
  depth : Int
  color : PieceColor
deriving DecidableEq, Repr

/-- `MinimaxAgent.__init__` from `agent.py`: only the depth is a parameter;
the color is always set to `BLACK`. -/
def MinimaxAgent.init (depth : Int) : MinimaxAgent :=
  ⟨depth, PieceColor.black⟩

/-- The `center_positions` list of `MinimaxAgent.evaluate`. -/
def center_positions : List Pos := [(1, 1), (1, 2), (2, 1), (2, 2)]

/-- The `presence_scores` accumulation of `MinimaxAgent.evaluate`: total
material of the given color on the board. -/
def presence_score (g : Grid) (color : PieceColor) : Int :=
  (positions.map fun p =>
    if ¬ (g p).piece_type = PieceType.empty ∧ (g p).piece_color = color then
      (g p).value
    else 0).sum

/-- The `center_scores` accumulation of `MinimaxAgent.evaluate`: material of
the given color on the four central squares. -/
def center_score (g : Grid) (color : PieceColor) : Int :=
  (positions.map fun p =>
    if ¬ (g p).piece_type = PieceType.empty ∧ (g p).piece_color = color ∧
        p ∈ center_positions then
      (g p).value
    else 0).sum

/-- `MinimaxAgent.evaluate` from `agent.py` (the method reads no agent
state): positive scores favour Black.  It reads the board's *stored*
`threat_scores` attribute. -/
def evaluate (board : Board) : Int :=
  let presence_white := presence_score board.grid PieceColor.white
  let presence_black := presence_score board.grid PieceColor.black
  let absence_white := SILVERMAN_DEFAULT_START_SCORES PieceColor.white - presence_white
  let absence_black := SILVERMAN_DEFAULT_START_SCORES PieceColor.black - presence_black
  let center_white := center_score board.grid PieceColor.white
  let center_black := center_score board.grid PieceColor.black
  let threatened_reward_white := board.threat_scores PieceColor.black
  let threatened_reward_black := board.threat_scores PieceColor.white
  (presence_black + absence_white + center_black + threatened_reward_black) -
    (presence_white + absence_black + center_white + threatened_reward_white)

/-- The `move_value` key of `MinimaxAgent.order_moves`.  The Python guard
`if move.captured_piece:` tests object truthiness: it is `False` only for
`None`; the Empty sentinel piece recorded for quiet board moves is an
ordinary (truthy) object of value 0, so the capture branch is taken for every
board-generated move. -/
def move_value (move : Move) : Int :=
  match move.captured_piece with
  | some captured => captured.value * 10 - move.piece.value
  | none => 0

/-- Stable insertion by an arbitrary descending integer key; the inserted
element, which comes earlier in the original list, precedes elements of
equal key. -/
def insert_desc_by (key : Move → Int) (m : Move) : List Move → List Move
  | [] => [m]
  | x :: xs =>
    if key x ≤ key m then m :: x :: xs
    else x :: insert_desc_by key m xs

/-- Stable descending sort by an arbitrary integer key. -/
def sort_desc_by (key : Move → Int) (moves : List Move) : List Move :=
  moves.foldr (insert_desc_by key) []

/-- `MinimaxAgent.order_moves` from `agent.py`:
`sorted(moves, key=move_value, reverse=True)` — a stable sort by decreasing
key (Python's `reverse=True` keeps ties in discovery order), realised as a
stable insertion sort. -/
def order_moves (moves : List Move) : List Move :=
  sort_desc_by move_value moves

/-- `MinimaxAgent.minimax` from `agent.py`, with explicit recursion fuel
(the first argument).  At fuel 0 the result is the dummy `fin 0`; every
board reached by a recursive call was produced by `Board.apply_move` and so
has empty stored `valid_moves`, which makes it terminal at the next level —
hence any positive fuel yields the value computed by the Python recursion.
The loop bodies thread `(running extreme, alpha or beta, broken)` through a
fold, where `broken` records that the `beta <= alpha` break fired. -/
def minimax (a : MinimaxAgent) : Nat → Board → Bool → Score → Score → Int → Score
  | 0, _, _, _, _, _ => Score.fin 0
  | fuel + 1, board, maximizing_player, alpha, beta, depth =>
    let current_color := if maximizing_player then a.color else PieceColor.white
    let opponent_color := if maximizing_player then PieceColor.white else a.color
    if depth = 0 then Score.fin (evaluate board)
    else if board.valid_moves current_color = [] then
      if board.check_status current_color then
        (if maximizing_player then Score.negInf else Score.posInf)
      else Score.fin 0
    else if board.valid_moves opponent_color = [] then
      if board.check_status opponent_color then
        (if maximizing_player then Score.posInf else Score.negInf)
      else Score.fin 0
    else if maximizing_player then
      let step := fun (s : Score × Score × Bool) (move : Move) =>
        match s with
        | (max_eval, alpha, true) => (max_eval, alpha, true)
        | (max_eval, alpha, false) =>
          let staged_board := board.apply_move move
          let staged_eval :=
            if staged_board.valid_moves PieceColor.white = [] ∧
                staged_board.check_status PieceColor.white then
              Score.posInf
            else minimax a fuel staged_board false alpha beta (depth - 1)
          let new_max := Score.max max_eval staged_eval
          let new_alpha := Score.max alpha new_max
          (new_max, new_alpha, Score.le beta new_alpha)
      ((board.valid_moves a.color).foldl step (Score.negInf, alpha, false)).1
    else
      let step := fun (s : Score × Score × Bool) (move : Move) =>
        match s with
        | (min_eval, beta, true) => (min_eval, beta, true)
        | (min_eval, beta, false) =>
          let staged_board := board.apply_move move
          let staged_eval :=
            if staged_board.valid_moves a.color = [] ∧
                staged_board.check_status a.color then
              Score.negInf
            else minimax a fuel staged_board true alpha beta (depth - 1)
          let new_min := Score.min min_eval staged_eval
          let new_beta := Score.min beta new_min
          (new_min, new_beta, Score.le new_beta alpha)
      ((board.valid_moves PieceColor.white).foldl step (Score.posInf, beta, false)).1

/-- `MinimaxAgent.get_best_move` from `agent.py`.  The root loop never
updates `alpha`/`beta`; each candidate is scored by the immediate-mate test
on the staged board's stored attributes, falling back to `minimax` at
`depth - 1`.  The fuel passed to `minimax` is positive, which suffices for
the value of the Python recursion (see `minimax`). -/
def get_best_move (a : MinimaxAgent) (board : Board) : Option Move :=
  let alpha := Score.negInf
  let beta := Score.posInf
  let all_maximizer_moves := order_moves (board.valid_moves a.color)
  let step := fun (s : Score × Option Move) (move : Move) =>
    let staged_board := board.apply_move move
    let score :=
      if staged_board.valid_moves PieceColor.white = [] ∧
          staged_board.check_status PieceColor.white then
        Score.posInf
      else minimax a (a.depth.toNat + 1) staged_board false alpha beta (a.depth - 1)
    if Score.lt s.1 score then (score, some move) else s
  (all_maximizer_moves.foldl step (Score.negInf, none)).2

/-! Statement apparatus: notions the claims quantify over that are not
functions of the sources (the spec's color-mirroring, the claimed move
ordering key, intermediate path squares, king multiplicity), plus concrete
fixture positions used by counterexamples and witnesses. -/

/-- Piece abbreviation: black king. -/
def bK : Piece := ⟨PieceColor.black, PieceType.king⟩

/-- Piece abbreviation: white king. -/
def wK : Piece := ⟨PieceColor.white, PieceType.king⟩

/-- Piece abbreviation: black queen. -/
def bQ : Piece := ⟨PieceColor.black, PieceType.queen⟩

/-- Piece abbreviation: white queen. -/
def wQ : Piece := ⟨PieceColor.white, PieceType.queen⟩

/-- Piece abbreviation: black rook. -/
def bR : Piece := ⟨PieceColor.black, PieceType.rook⟩

/-- Piece abbreviation: white rook. -/
def wR : Piece := ⟨PieceColor.white, PieceType.rook⟩

/-- Piece abbreviation: black pawn. -/
def bP : Piece := ⟨PieceColor.black, PieceType.pawn⟩

/-- Piece abbreviation: white pawn. -/
def wP : Piece := ⟨PieceColor.white, PieceType.pawn⟩

/-- Builds a grid from a placement list; unlisted squares are empty. -/
def mk_grid (l : List (Pos × Piece)) : Grid := fun p =>
  match l.find? (fun q => q.1 = p) with
  | some q => q.2
  | none => empty_piece

/-- Color exchange of the spec's symmetry property (the Empty sentinel is
fixed). -/
def swap_color : PieceColor → PieceColor
  | PieceColor.white => PieceColor.black
  | PieceColor.black => PieceColor.white
  | PieceColor.empty => PieceColor.empty

/-- Color exchange on pieces. -/
def swap_piece (p : Piece) : Piece := ⟨swap_color p.piece_color, p.piece_type⟩

/-- Rank mirroring of a square. -/
def flip_pos (p : Pos) : Pos := (3 - p.1, p.2)

/-- The spec's "color-mirrored counterpart" of a position: piece colors
swapped and the position mirrored (ranks reversed). -/
def mirror_grid (g : Grid) : Grid := fun p => swap_piece (g (flip_pos p))

/-- Color-mirroring of a move, the move correspondence induced by
`mirror_grid`. -/
def mirror_move (m : Move) : Move :=
  ⟨swap_piece m.piece, flip_pos m.from_pos, flip_pos m.to_pos,
    m.captured_piece.map swap_piece⟩

/-- A square `p` holds a king of color `color`. -/
def king_at (g : Grid) (color : PieceColor) (p : Pos) : Prop :=
  (g p).piece_type = PieceType.king ∧ (g p).piece_color = color

/-- The grid holds at most one king of the given color (non-degenerate in
the sense of the spec's tolerated malformed positions). -/
def at_most_one_king (g : Grid) (color : PieceColor) : Prop :=
  ∀ p q : Pos, king_at g color p → king_at g color q → p = q

/-- Chebyshev step count from one square to another. -/
def steps_between (a b : Pos) : Nat :=
  Nat.max ((b.1 : Int) - (a.1 : Int)).natAbs ((b.2 : Int) - (a.2 : Int)).natAbs

/-- The intermediate squares of the straight or diagonal path from `a` to
`b`, endpoints excluded (steps `1` to `steps_between - 1` along the sign
direction), as stated by the claim about sliding moves. -/
def path_cells_spec (a b : Pos) : List (Int × Int) :=
  let dr := sign_step a.1 b.1
  let dc := sign_step a.2 b.2
  (List.range (steps_between a b - 1)).map fun k : Nat =>
    ((a.1 : Int) + ((k : Int) + 1) * dr, (a.2 : Int) + ((k : Int) + 1) * dc)

/-- The pseudo-legal generation order of `Board.get_valid_moves_for_color`:
the same row-major scan and template order, without the self-check filter. -/
def pseudo_legal_moves (g : Grid) (color : PieceColor) : List Move :=
  positions.flatMap fun from_pos =>
    let piece := g from_pos
    if piece.piece_type = PieceType.empty ∨ ¬ piece.piece_color = color then []
    else
      (piece.possible_moves from_pos).flatMap fun to_pos =>
        let target := g to_pos
        if ¬ is_valid_piece_move g piece target from_pos to_pos then []
        else [⟨piece, from_pos, to_pos, some target⟩]

/-- The ordering key as the claim words it: `capturedValue*10 - moverValue`
for capture moves and `0` for quiet (non-capturing) moves. -/
def spec_move_value (move : Move) : Int :=
  match move.captured_piece with
  | some captured =>
    if captured.piece_type = PieceType.empty then 0
    else captured.value * 10 - move.piece.value
  | none => 0

/-- The move ordering the claim describes: a stable descending sort on
`spec_move_value`. -/
def spec_order_moves (moves : List Move) : List Move :=
  sort_desc_by spec_move_value moves

/-- The score `get_best_move` assigns to one root candidate move (reading
off the root loop body: the immediate-mate test on the staged board's stored
attributes, else `minimax` with the root's full window). -/
def root_score (a : MinimaxAgent) (board : Board) (move : Move) : Score :=
  let staged_board := board.apply_move move
  if staged_board.valid_moves PieceColor.white = [] ∧
      staged_board.check_status PieceColor.white then Score.posInf
  else
    minimax a (a.depth.toNat + 1) staged_board false Score.negInf Score.posInf
      (a.depth - 1)

/-- The accumulator step of the root loop of `get_best_move`, abstracted
over the candidate scoring function. -/
def best_step (f : Move → Score) (s : Score × Option Move) (move : Move) :
    Score × Option Move :=
  if Score.lt s.1 (f move) then (f move, some move) else s

/-- Fixture (claim C4 and others): Scenario A of the spec — White is
checkmated in the corner by two Black rooks. -/
def grid_corner_mate : Grid :=
  mk_grid [((0, 0), wK), ((0, 3), bR), ((1, 3), bR), ((3, 3), bK)]

/-- Fixture (claim C5): Black has a mate in one (queen `(2,1) -> (1,1)`,
guarded by the Black king), while Black's rook can instead capture the
undefended White rook on `(3,3)` — a capture that gives no check at all. -/
def grid_mate_miss : Grid :=
  mk_grid [((0, 0), wK), ((2, 1), bQ), ((2, 2), bK), ((1, 3), bR), ((3, 3), wR)]

/-- The mating move of `grid_mate_miss`. -/
def mate_move : Move := ⟨bQ, (2, 1), (1, 1), some empty_piece⟩

/-- The rook-capturing move of `grid_mate_miss` actually chosen by the
agent. -/
def capture_move : Move := ⟨bR, (1, 3), (3, 3), some wR⟩

/-- Fixture (claim C6): a degenerate position with two White kings; the
spec tolerates such grids.  The row-major king scan picks a different king
on the mirrored grid, breaking the evaluation symmetry. -/
def grid_two_kings : Grid :=
  mk_grid [((0, 0), wK), ((2, 3), wK), ((3, 1), wR), ((3, 2), bP), ((3, 3), bR)]

/-- Fixture (claim C7): Black has only quiet moves, by movers of different
values (king, rook, pawn), so the truthy Empty captured piece makes the
sort key `-moverValue` instead of the claimed `0`. -/
def grid_quiet : Grid :=
  mk_grid [((0, 0), bK), ((0, 3), bR), ((1, 1), bP), ((3, 0), wK)]

/-- Fixture (claim C3): a legal White capture on the initial board; the
`Board` the search stages after it still carries the `__init__` defaults. -/
def white_capture : Move := ⟨wP, (2, 0), (1, 1), some bP⟩

/-- Fixture (claim C9): a degenerate move whose source and destination
coincide, applied to the initial board. -/
def degenerate_move : Move := ⟨bR, (0, 0), (0, 0), some bR⟩

/-! Runtime model (claim C1): CPython's `set` of int pairs.  The program's
`Piece.possible_moves` returns a set comprehension over the displacement
template, and the board iterates that set, so the within-mover destination
order is CPython's hash-table iteration order.  For pairs of small
nonnegative ints this order is deterministic (int hashing and the pyhash
tuple hash are unrandomized; `PYTHONHASHSEED` affects only str/bytes).  The
model below follows `tupleobject.c` (tuple hash, 64-bit build) and
`setobject.c` (open addressing with `LINEAR_PROBES = 9`,
`PERTURB_SHIFT = 5`, minimum table size 8, growth at fill factor 3/5,
re-insertion in slot order on resize, iteration in slot order). -/

/-- 64-bit left rotation by 31 of a value below `2 ^ 64`. -/
def cpython_rotl31 (x : Nat) : Nat := (x % 2 ^ 33) * 2 ^ 31 + x / 2 ^ 33

/-- CPython's tuple hash (`tupleobject.c`, xxHash-based, 64-bit build) of a
pair of small nonnegative ints, each of which hashes to itself. -/
def cpython_tuple_hash2 (t : Nat × Nat) : Nat :=
  let acc0 : Nat := 2870177450012600261
  let acc1 := (cpython_rotl31 ((acc0 + t.1 * 14029467366897019727) % 2 ^ 64) *
      11400714785074694791) % 2 ^ 64
  let acc2 := (cpython_rotl31 ((acc1 + t.2 * 14029467366897019727) % 2 ^ 64) *
      11400714785074694791) % 2 ^ 64
  let acc3 := (acc2 + Nat.xor 2 (Nat.xor 2870177450012600261 3527539)) % 2 ^ 64
  if acc3 = 2 ^ 64 - 1 then 1546275796 else acc3

/-- One linear-probe window of `set_add_entry`: examine `n + 1` consecutive
slots from `j`; `Sum.inl j` is the first unused slot, `Sum.inr ()` means the
key is already present, `none` means the window holds only other keys. -/
def cpython_scan (table : List (Option ((Nat × Nat) × Nat))) (h : Nat)
    (key : Nat × Nat) : Nat → Nat → Option (Sum Nat Unit)
  | j, 0 =>
    match table.getD j none with
    | none => some (Sum.inl j)
    | some e => if e.2 = h ∧ e.1 = key then some (Sum.inr ()) else none
  | j, n + 1 =>
    match table.getD j none with
    | none => some (Sum.inl j)
    | some e =>
      if e.2 = h ∧ e.1 = key then some (Sum.inr ())
      else cpython_scan table h key (j + 1) n

/-- The probe loop of `set_add_entry`: scan a window, then jump to
`(i * 5 + 1 + perturb) &&& mask` with `perturb >>= 5`.  The fuel is
unreachable-exhaustion for any table kept below full. -/
def cpython_probe (table : List (Option ((Nat × Nat) × Nat))) (mask h : Nat)
    (key : Nat × Nat) : Nat → Nat → Nat → Option (Sum Nat Unit)
  | 0, _, _ => none
  | fuel + 1, i, perturb =>
    let probes := if i + 9 ≤ mask then 9 else 0
    match cpython_scan table h key i probes with
    | some r => some r
    | none =>
      cpython_probe table mask h key fuel
        ((i * 5 + 1 + perturb / 32) % (mask + 1)) (perturb / 32)

/-- Linear-probe window of `set_insert_clean`: first unused slot, if any. -/
def cpython_scan_clean (table : List (Option ((Nat × Nat) × Nat))) :
    Nat → Nat → Option Nat
  | j, 0 =>
    match table.getD j none with
    | none => some j
    | some _ => none
  | j, n + 1 =>
    match table.getD j none with
    | none => some j
    | some _ => cpython_scan_clean table (j + 1) n

/-- The probe loop of `set_insert_clean` (resize re-insertion: keys are
known distinct, so only unused slots are sought). -/
def cpython_probe_clean (table : List (Option ((Nat × Nat) × Nat)))
    (mask : Nat) : Nat → Nat → Nat → Option Nat
  | 0, _, _ => none
  | fuel + 1, i, perturb =>
    let probes := if i + 9 ≤ mask then 9 else 0
    match cpython_scan_clean table i probes with
    | some j => some j
    | none =>
      cpython_probe_clean table mask fuel
        ((i * 5 + 1 + perturb / 32) % (mask + 1)) (perturb / 32)

/-- A CPython set of int pairs: slot table (entries pair the key with its
hash), mask, fill and used counts. -/
structure CPySet where
  table : List (Option ((Nat × Nat) × Nat))
  mask : Nat
  fill : Nat
  used : Nat

/-- `set_insert_clean` from `setobject.c`. -/
def cpython_insert_clean (table : List (Option ((Nat × Nat) × Nat)))
    (mask : Nat) (e : (Nat × Nat) × Nat) :
    List (Option ((Nat × Nat) × Nat)) :=
  match cpython_probe_clean table mask 64 (e.2 % (mask + 1)) e.2 with
  | some j => table.set j (some e)
  | none => table

/-- `set_table_resize` size computation: the smallest power of two above
`minused`, starting from the minimum size 8. -/
def cpython_newsize (minused : Nat) : Nat → Nat → Nat
  | 0, sz => sz
  | f + 1, sz => if sz ≤ minused then cpython_newsize minused f (sz * 2) else sz

/-- `set_table_resize` from `setobject.c`: grow to hold `4 * used` (for the
small sets here), re-inserting the old table's entries in slot order. -/
def CPySet.resize (s : CPySet) : CPySet :=
  let minused := if s.used ≤ 50000 then s.used * 4 else s.used * 2
  let newsize := cpython_newsize minused 32 8
  let tbl := s.table.foldl
    (fun t oe =>
      match oe with
      | none => t
      | some e => cpython_insert_clean t (newsize - 1) e)
    (List.replicate newsize none)
  { table := tbl, mask := newsize - 1, fill := s.used, used := s.used }

/-- `set_add_entry` from `setobject.c`: probe for the key, insert it into
the first unused slot if absent, and resize once the fill factor reaches
3/5 of the mask. -/
def CPySet.add (s : CPySet) (key : Nat × Nat) : CPySet :=
  let h := cpython_tuple_hash2 key
  match cpython_probe s.table s.mask h key 64 (h % (s.mask + 1)) h with
  | some (Sum.inr _) => s
  | some (Sum.inl j) =>
    let s1 : CPySet :=
      { table := s.table.set j (some (key, h)), mask := s.mask,
        fill := s.fill + 1, used := s.used + 1 }
    if (s.fill + 1) * 5 ≥ s.mask * 3 then s1.resize else s1
  | none => s

/-- Set iteration: slots in table order, skipping unused ones. -/
def CPySet.to_list (s : CPySet) : List (Nat × Nat) :=
  s.table.filterMap fun oe => oe.map fun e => e.1

/-- The empty set: the minimum table of 8 unused slots. -/
def CPySet.empty8 : CPySet :=
  { table := List.replicate 8 none, mask := 7, fill := 0, used := 0 }

/-- The iteration order of the CPython set built by inserting the given
keys in the given order: the order in which the program's `for` loop sees
the destinations of `Piece.possible_moves`. -/
def cpython_set_order (l : List (Nat × Nat)) : List (Nat × Nat) :=
  (l.foldl CPySet.add CPySet.empty8).to_list

/-! General lemmas about the embedded engine. -/

theorem mem_positions (p : Pos) : p ∈ positions := by
  revert p; decide

theorem cgs_valid_moves (b : Board) (c : PieceColor) (hc : c ≠ PieceColor.empty) :
    (b.compute_game_state).valid_moves c = get_valid_moves_for_color b.grid c := by
  cases c with
  | white => rfl
  | black => rfl
  | empty => exact absurd rfl hc

theorem cgs_check_status (b : Board) (c : PieceColor) (hc : c ≠ PieceColor.empty) :
    (b.compute_game_state).check_status c = is_check b.grid c := by
  cases c with
  | white => rfl
  | black => rfl
  | empty => exact absurd rfl hc

theorem cgs_grid (b : Board) : (b.compute_game_state).grid = b.grid := rfl

/-- Characterization of membership in the legal-move list. -/
theorem mem_get_valid_moves {g : Grid} {color : PieceColor} {m : Move} :
    m ∈ get_valid_moves_for_color g color ↔
      m.piece = g m.from_pos ∧ m.captured_piece = some (g m.to_pos) ∧
      ¬ (g m.from_pos).piece_type = PieceType.empty ∧
      (g m.from_pos).piece_color = color ∧
      m.to_pos ∈ (g m.from_pos).possible_moves m.from_pos ∧
      is_valid_piece_move g (g m.from_pos) (g m.to_pos) m.from_pos m.to_pos = true ∧
      does_move_leave_king_in_check g m color = false := by
  unfold get_valid_moves_for_color
  rw [List.mem_flatMap]
  constructor
  · rintro ⟨fp, -, hm⟩
    by_cases hskip : (g fp).piece_type = PieceType.empty ∨ ¬ (g fp).piece_color = color
    · rw [if_pos hskip] at hm; cases hm
    · rw [if_neg hskip] at hm
      rw [List.mem_flatMap] at hm
      obtain ⟨tp, htp, hm⟩ := hm
      by_cases hv : is_valid_piece_move g (g fp) (g tp) fp tp
      · rw [if_neg (by simpa using hv)] at hm
        by_cases hchk :
            does_move_leave_king_in_check g ⟨g fp, fp, tp, some (g tp)⟩ color = true
        · rw [if_pos hchk] at hm; cases hm
        · rw [if_neg hchk] at hm
          obtain rfl : m = ⟨g fp, fp, tp, some (g tp)⟩ := List.mem_singleton.mp hm
          push_neg at hskip
          exact ⟨rfl, rfl, hskip.1, hskip.2, htp, hv, by simpa using hchk⟩
      · rw [if_pos (by simpa using hv)] at hm; cases hm
  · rintro ⟨hpc, hcap, hne, hcol, htp, hv, hchk⟩
    refine ⟨m.from_pos, mem_positions _, ?_⟩
    rw [if_neg (by push_neg; exact ⟨hne, hcol⟩)]
    rw [List.mem_flatMap]
    refine ⟨m.to_pos, htp, ?_⟩
    rw [if_neg (by simpa using hv)]
    have hm : m = ⟨g m.from_pos, m.from_pos, m.to_pos, some (g m.to_pos)⟩ := by
      cases m; simp_all
    rw [← hm, if_neg (by simp [hchk])]
    exact List.mem_singleton.mpr rfl

/-- The legal-move list is the pseudo-legal generation filtered by the
self-check test, in unchanged order. -/
theorem get_valid_eq_filter_pseudo (g : Grid) (color : PieceColor) :
    get_valid_moves_for_color g color =
      (pseudo_legal_moves g color).filter
        fun m => ! does_move_leave_king_in_check g m color := by
  unfold get_valid_moves_for_color pseudo_legal_moves
  rw [List.filter_flatMap]
  refine List.flatMap_congr fun fp _ => ?_
  by_cases hskip : (g fp).piece_type = PieceType.empty ∨ ¬ (g fp).piece_color = color
  · rw [if_pos hskip, if_pos hskip]; rfl
  · rw [if_neg hskip, if_neg hskip, List.filter_flatMap]
    refine List.flatMap_congr fun tp _ => ?_
    by_cases hv : is_valid_piece_move g (g fp) (g tp) fp tp = true
    · by_cases hchk :
          does_move_leave_king_in_check g ⟨g fp, fp, tp, some (g tp)⟩ color = true
      · simp [hv, hchk]
      · simp [hv, hchk]
    · simp [hv]

/-! Claim C2: checkmate/stalemate are derived exactly as claimed. -/

theorem c2_aux (ic : Bool) (l : List Move) :
    ((ic && decide (l.length = 0)) = true ↔ ic = true ∧ l = []) ∧
    ((!ic && decide (l.length = 0)) = true ↔ ic = false ∧ l = []) ∧
    ¬ ((ic && decide (l.length = 0)) = true ∧ (!ic && decide (l.length = 0)) = true) := by
  cases ic <;> simp [List.length_eq_zero]

/-- C2: on any board whose game state has been computed, and for either real
color, checkmate holds iff the color is in check with no legal moves,
stalemate holds iff the color is not in check with no legal moves, and the
two flags are never both set. -/
theorem c2_checkmate_stalemate_derived (b : Board) (c : PieceColor)
    (hc : c ≠ PieceColor.empty) :
    ((b.compute_game_state).checkmate_status c = true ↔
      (b.compute_game_state).check_status c = true ∧
        (b.compute_game_state).valid_moves c = []) ∧
    ((b.compute_game_state).stalemate_status c = true ↔
      (b.compute_game_state).check_status c = false ∧
        (b.compute_game_state).valid_moves c = []) ∧
    ¬ ((b.compute_game_state).checkmate_status c = true ∧
        (b.compute_game_state).stalemate_status c = true) := by
  cases c with
  | empty => exact absurd rfl hc
  | white =>
    exact c2_aux (is_check b.grid PieceColor.white)
      (get_valid_moves_for_color b.grid PieceColor.white)
  | black =>
    exact c2_aux (is_check b.grid PieceColor.black)
      (get_valid_moves_for_color b.grid PieceColor.black)

/-- Witness for C2 at the initial board and color White. -/
theorem c2_checkmate_stalemate_derived_witness :
    PieceColor.white ≠ PieceColor.empty ∧
    ((((Board.init initial_grid).compute_game_state).checkmate_status
        PieceColor.white = true ↔
      ((Board.init initial_grid).compute_game_state).check_status
          PieceColor.white = true ∧
        ((Board.init initial_grid).compute_game_state).valid_moves
          PieceColor.white = []) ∧
    (((Board.init initial_grid).compute_game_state).stalemate_status
        PieceColor.white = true ↔
      ((Board.init initial_grid).compute_game_state).check_status
          PieceColor.white = false ∧
        ((Board.init initial_grid).compute_game_state).valid_moves
          PieceColor.white = []) ∧
    ¬ (((Board.init initial_grid).compute_game_state).checkmate_status
          PieceColor.white = true ∧
        ((Board.init initial_grid).compute_game_state).stalemate_status
          PieceColor.white = true)) :=
  ⟨by decide,
    c2_checkmate_stalemate_derived (Board.init initial_grid) PieceColor.white
      (by decide)⟩

/-! Claim C3: the boards staged by the search carry stale derived fields. -/

/-- C3 (code bug exhibit): `white_capture` is a legal White move of the
initial position, yet the child board the agent's search observes after it —
`Board.apply_move` without `compute_game_state` — reports an empty White
legal-move list and no check, while the list derived from its grid is
nonempty.  This is the partially-computed Board the claim says no consumer
ever observes. -/
theorem c3_search_observes_stale_board :
    white_capture ∈
      ((Board.init initial_grid).compute_game_state).valid_moves
        PieceColor.white ∧
    (((Board.init initial_grid).compute_game_state).apply_move
        white_capture).valid_moves PieceColor.white = [] ∧
    (((Board.init initial_grid).compute_game_state).apply_move
        white_capture).check_status PieceColor.white = false ∧
    get_valid_moves_for_color
        ((((Board.init initial_grid).compute_game_state).apply_move
          white_capture).grid) PieceColor.white ≠ [] := by
  decide

/-! Claim C9: the frame property of `apply_move`. -/

/-- C9 counterexample: for the degenerate move whose source and destination
are both `(0,0)`, the resulting grid holds the moved rook — not the Empty
sentinel the claim requires at the source square. -/
theorem c9_counterexample_same_square :
    ((Board.init initial_grid).apply_move degenerate_move).grid
        ((0 : Fin 4), (0 : Fin 4)) = bR ∧
      bR ≠ empty_piece := by
  decide

/-- C9 as amended: for every move whose source and destination squares
differ, `apply_move` yields a board whose grid is Empty at the source, holds
the moved piece at the destination, and agrees with the old grid everywhere
else (the embedding is purely functional, so the input board is unchanged by
construction). -/
theorem c9_apply_move_frame (b : Board) (m : Move)
    (hne : m.from_pos ≠ m.to_pos) :
    (b.apply_move m).grid m.to_pos = m.piece ∧
    (b.apply_move m).grid m.from_pos = empty_piece ∧
    ∀ p : Pos, p ≠ m.from_pos → p ≠ m.to_pos →
      (b.apply_move m).grid p = b.grid p := by
  refine ⟨?_, ?_, ?_⟩
  · show apply_move_grid b.grid m m.to_pos = m.piece
    simp [apply_move_grid]
  · show apply_move_grid b.grid m m.from_pos = empty_piece
    simp [apply_move_grid, hne]
  · intro p h1 h2
    show apply_move_grid b.grid m p = b.grid p
    simp [apply_move_grid, h1, h2]

/-- Witness for C9 at the initial board and the pawn capture
`(2,0) -> (1,1)`. -/
theorem c9_apply_move_frame_witness :
    white_capture.from_pos ≠ white_capture.to_pos ∧
    (((Board.init initial_grid).apply_move white_capture).grid
        white_capture.to_pos = white_capture.piece ∧
    ((Board.init initial_grid).apply_move white_capture).grid
        white_capture.from_pos = empty_piece ∧
    ∀ p : Pos, p ≠ white_capture.from_pos → p ≠ white_capture.to_pos →
      ((Board.init initial_grid).apply_move white_capture).grid p =
        (Board.init initial_grid).grid p) :=
  ⟨by decide,
    c9_apply_move_frame (Board.init initial_grid) white_capture (by decide)⟩

/-! Claim C4: terminal scoring inside `minimax`. -/

/-- C4 counterexample: on the computed Scenario-A board White (the minimizer
here) is in check with no legal moves, yet at remaining depth 0 `minimax`
returns the evaluator's finite score (1020), not the claimed decisive
sentinel `+inf` — the `depth == 0` test precedes the terminal tests. -/
theorem c4_counterexample_depth_zero :
    ((Board.init grid_corner_mate).compute_game_state).valid_moves
        PieceColor.white = [] ∧
    ((Board.init grid_corner_mate).compute_game_state).check_status
        PieceColor.white = true ∧
    minimax (MinimaxAgent.init 3) 5
        ((Board.init grid_corner_mate).compute_game_state) false Score.negInf
        Score.posInf 0 = Score.fin 1020 ∧
    Score.fin (1020 : Int) ≠ Score.posInf := by
  decide

/-- C4 as amended: when the remaining depth is 0 `minimax` returns the
evaluator's score unconditionally (terminal or not); at any nonzero depth,
if the side to move has no stored legal moves, the value is the decisive
sentinel (`-inf` when the mated side is the maximizer, `+inf` when it is the
minimizer) if that side is in check, and 0 otherwise. -/
theorem c4_minimax_terminal_values (a : MinimaxAgent) (fuel : Nat) (b : Board)
    (maximizing : Bool) (alpha beta : Score) (depth : Int) :
    (depth = 0 →
      minimax a (fuel + 1) b maximizing alpha beta depth =
        Score.fin (evaluate b)) ∧
    (depth ≠ 0 →
      b.valid_moves (if maximizing then a.color else PieceColor.white) = [] →
      minimax a (fuel + 1) b maximizing alpha beta depth =
        if b.check_status (if maximizing then a.color else PieceColor.white) then
          (if maximizing then Score.negInf else Score.posInf)
        else Score.fin 0) := by
  constructor
  · intro h
    subst h
    simp [minimax]
  · intro hdep hmoves
    simp only [minimax]
    rw [if_neg hdep, if_pos hmoves]

/-- Witness for C4 at the computed Scenario-A board, minimizing side, depth
2. -/
theorem c4_minimax_terminal_values_witness :
    ((2 : Int) ≠ 0) ∧
    ((Board.init grid_corner_mate).compute_game_state).valid_moves
        PieceColor.white = [] ∧
    minimax (MinimaxAgent.init 3) (3 + 1)
        ((Board.init grid_corner_mate).compute_game_state) false Score.negInf
        Score.posInf 2 =
      (if ((Board.init grid_corner_mate).compute_game_state).check_status
          PieceColor.white then Score.posInf else Score.fin 0) := by
  refine ⟨by decide, by decide, ?_⟩
  exact (c4_minimax_terminal_values (MinimaxAgent.init 3) 3
      ((Board.init grid_corner_mate).compute_game_state) false Score.negInf
      Score.posInf 2).2 (by decide) (by decide)

/-! Claim C5: the mate-in-one scenario. -/

/-- C5 (code bug exhibit): on `grid_mate_miss`, Black's queen move to
`(1,1)` is legal and leaves White checkmated (no legal moves, in check), yet
`get_best_move` at depth 1 returns the rook's queen capture instead, and
after that capture White is not even in check.  The staged boards' stored
status fields are the stale `__init__` defaults, so the agent's
immediate-checkmate shortcut never fires. -/
theorem c5_mate_in_one_missed :
    mate_move ∈
      ((Board.init grid_mate_miss).compute_game_state).valid_moves
        PieceColor.black ∧
    get_valid_moves_for_color (apply_move_grid grid_mate_miss mate_move)
        PieceColor.white = [] ∧
    is_check (apply_move_grid grid_mate_miss mate_move) PieceColor.white =
      true ∧
    get_best_move (MinimaxAgent.init 1)
        ((Board.init grid_mate_miss).compute_game_state) = some capture_move ∧
    capture_move ≠ mate_move ∧
    is_check (apply_move_grid grid_mate_miss capture_move) PieceColor.white =
      false := by
  decide

/-! Claim C7: move ordering. -/

theorem insert_desc_by_perm (key : Move → Int) (m : Move) (l : List Move) :
    List.Perm (insert_desc_by key m l) (m :: l) := by
  induction l with
  | nil => exact List.Perm.refl _
  | cons x xs ih =>
    by_cases h : key x ≤ key m
    · simp [insert_desc_by, h]
    · simp only [insert_desc_by, if_neg h]
      exact (ih.cons x).trans (List.Perm.swap m x xs)

theorem sort_desc_by_perm (key : Move → Int) (l : List Move) :
    List.Perm (sort_desc_by key l) l := by
  induction l with
  | nil => exact List.Perm.refl _
  | cons x xs ih => exact (insert_desc_by_perm key x _).trans (ih.cons x)

theorem sorted_insert_desc_by (key : Move → Int) (m : Move) (l : List Move)
    (h : List.Pairwise (fun a b => key b ≤ key a) l) :
    List.Pairwise (fun a b => key b ≤ key a) (insert_desc_by key m l) := by
  induction l with
  | nil => simp [insert_desc_by]
  | cons x xs ih =>
    rcases List.pairwise_cons.mp h with ⟨hx, hxs⟩
    by_cases hc : key x ≤ key m
    · simp only [insert_desc_by, if_pos hc]
      refine List.pairwise_cons.mpr ⟨?_, h⟩
      intro y hy
      rcases List.mem_cons.mp hy with rfl | hy
      · exact hc
      · exact le_trans (hx y hy) hc
    · simp only [insert_desc_by, if_neg hc]
      refine List.pairwise_cons.mpr ⟨?_, ih hxs⟩
      intro y hy
      rcases List.mem_cons.mp ((insert_desc_by_perm key m xs).mem_iff.mp hy) with
        rfl | hy2
      · exact le_of_lt (lt_of_not_le hc)
      · exact hx y hy2

theorem sorted_sort_desc_by (key : Move → Int) (l : List Move) :
    List.Pairwise (fun a b => key b ≤ key a) (sort_desc_by key l) := by
  induction l with
  | nil => simp [sort_desc_by]
  | cons x xs ih => exact sorted_insert_desc_by key x _ ih

theorem filter_insert_desc_by (key : Move → Int) (m : Move) (l : List Move)
    (k : Int) :
    (insert_desc_by key m l).filter (fun x => key x = k) =
      if key m = k then m :: l.filter (fun x => key x = k)
      else l.filter (fun x => key x = k) := by
  induction l with
  | nil =>
    by_cases hmk : key m = k <;> simp [insert_desc_by, hmk]
  | cons x xs ih =>
    by_cases hc : key x ≤ key m
    · simp only [insert_desc_by, if_pos hc]
      by_cases hmk : key m = k <;> simp [hmk]
    · simp only [insert_desc_by, if_neg hc]
      by_cases hxk : key x = k
      · have hmk : ¬ key m = k := by
          intro hmk
          exact hc (le_of_eq (hxk.trans hmk.symm))
        simp [hxk, ih, hmk]
      · simp [hxk, ih]

theorem filter_sort_desc_by (key : Move → Int) (l : List Move) (k : Int) :
    (sort_desc_by key l).filter (fun x => key x = k) =
      l.filter (fun x => key x = k) := by
  induction l with
  | nil => simp [sort_desc_by]
  | cons x xs ih =>
    show (insert_desc_by key x (sort_desc_by key xs)).filter _ = _
    rw [filter_insert_desc_by]
    by_cases hxk : key x = k <;> simp [hxk, ih]

/-- C7 counterexample: on the computed `grid_quiet` board (Black has only
quiet moves, by king, rook and pawn), the order actually scanned by the root
(`order_moves`) differs from the claimed order (key 0 for every quiet move,
ties in discovery order): the recorded captured piece of a quiet move is the
truthy Empty sentinel, so its key is `-moverValue`, which promotes the pawn
moves over the rook and king moves. -/
theorem c7_counterexample_quiet_key :
    order_moves
        (((Board.init grid_quiet).compute_game_state).valid_moves
          PieceColor.black) ≠
      spec_order_moves
        (((Board.init grid_quiet).compute_game_state).valid_moves
          PieceColor.black) := by
  decide

/-- C7 as amended: `order_moves` — applied to the candidate list at the root
ply only — is the stable descending sort by the key
`capturedValue*10 - moverValue` computed for every move, captures and quiet
moves alike (a quiet move's recorded captured piece is the Empty sentinel of
value 0, so its key is `-moverValue`): the output is a permutation of the
input, is sorted by that key in descending order, and moves of equal key
keep their discovery order. -/
theorem c7_order_moves_characterization (moves : List Move) :
    List.Perm (order_moves moves) moves ∧
    List.Pairwise (fun m1 m2 => move_value m2 ≤ move_value m1)
      (order_moves moves) ∧
    ∀ k : Int,
      (order_moves moves).filter (fun m => move_value m = k) =
        moves.filter (fun m => move_value m = k) :=
  ⟨sort_desc_by_perm move_value moves, sorted_sort_desc_by move_value moves,
    fun k => filter_sort_desc_by move_value moves k⟩

/-! Claim C8 and claim C10: the root selection loop. -/

theorem get_best_move_eq (a : MinimaxAgent) (b : Board) :
    get_best_move a b =
      ((order_moves (b.valid_moves a.color)).foldl
        (best_step (root_score a b)) (Score.negInf, none)).2 := rfl

/-- Boards staged by `apply_move` are terminal for `minimax` at every
nonzero depth, and evaluated at depth 0: their stored move lists are the
`__init__` defaults. -/
theorem minimax_stale (a : MinimaxAgent) (fuel : Nat) (b : Board) (m : Move)
    (maximizing : Bool) (alpha beta : Score) (depth : Int) :
    minimax a (fuel + 1) (b.apply_move m) maximizing alpha beta depth =
      if depth = 0 then Score.fin (evaluate (b.apply_move m))
      else Score.fin 0 := by
  have hv : (b.apply_move m).valid_moves
      (if maximizing then a.color else PieceColor.white) = [] := rfl
  have hc : (b.apply_move m).check_status
      (if maximizing then a.color else PieceColor.white) = false := rfl
  simp only [minimax]
  by_cases h : depth = 0
  · rw [if_pos h, if_pos h]
  · rw [if_neg h, if_neg h, if_pos hv, hc]
    simp

theorem root_score_gt_negInf (a : MinimaxAgent) (b : Board) (m : Move) :
    Score.lt Score.negInf (root_score a b m) = true := by
  unfold root_score
  have hcond : ¬ ((b.apply_move m).valid_moves PieceColor.white = [] ∧
      (b.apply_move m).check_status PieceColor.white = true) := by
    rintro ⟨-, h2⟩
    have hcs : (b.apply_move m).check_status PieceColor.white = false := rfl
    rw [hcs] at h2
    exact absurd h2 (by decide)
  rw [if_neg hcond, minimax_stale]
  by_cases hd : a.depth - 1 = 0 <;> simp [hd, Score.lt]

theorem best_fold_shape (f : Move → Score) (l : List Move) :
    ∀ s : Score × Option Move,
      (l.foldl (best_step f) s).2 = s.2 ∨
        ∃ m ∈ l, (l.foldl (best_step f) s).2 = some m := by
  induction l with
  | nil => intro s; exact Or.inl rfl
  | cons m rest ih =>
    intro s
    rcases ih (best_step f s m) with h | ⟨x, hx, hh⟩
    · by_cases hlt : Score.lt s.1 (f m) = true
      · right
        refine ⟨m, List.mem_cons_self m rest, ?_⟩
        rw [List.foldl_cons, h]
        simp [best_step, hlt]
      · left
        rw [List.foldl_cons, h]
        simp [best_step, hlt]
    · right
      exact ⟨x, List.mem_cons_of_mem m hx, hh⟩

theorem best_fold_none_iff (f : Move → Score) (l : List Move)
    (hl : ∀ m ∈ l, Score.lt Score.negInf (f m) = true) :
    (l.foldl (best_step f) (Score.negInf, none)).2 = none ↔ l = [] := by
  cases l with
  | nil => simp
  | cons m rest =>
    constructor
    · intro h
      rw [List.foldl_cons] at h
      have hstep : best_step f (Score.negInf, none) m = (f m, some m) := by
        simp [best_step, hl m (List.mem_cons_self m rest)]
      rw [hstep] at h
      rcases best_fold_shape f rest (f m, some m) with h2 | ⟨x, -, h2⟩
      · rw [h] at h2; cases h2
      · rw [h] at h2; cases h2
    · intro h; cases h

/-- C8: for any search depth and any board with computed game state,
`get_best_move` returns `None` exactly when the agent's color (Black) has no
legal moves; any non-`None` result is one of those legal moves. -/
theorem c8_get_best_move_none_iff (d : Int) (b : Board) :
    (get_best_move (MinimaxAgent.init d) (b.compute_game_state) = none ↔
      get_valid_moves_for_color b.grid PieceColor.black = []) ∧
    (∀ m : Move,
      get_best_move (MinimaxAgent.init d) (b.compute_game_state) = some m →
      m ∈ get_valid_moves_for_color b.grid PieceColor.black) := by
  have hlist : (b.compute_game_state).valid_moves (MinimaxAgent.init d).color =
      get_valid_moves_for_color b.grid PieceColor.black := rfl
  have hperm :
      List.Perm
        (order_moves ((b.compute_game_state).valid_moves
          (MinimaxAgent.init d).color))
        (get_valid_moves_for_color b.grid PieceColor.black) := by
    rw [hlist]
    exact sort_desc_by_perm move_value _
  constructor
  · rw [get_best_move_eq,
      best_fold_none_iff _ _ (fun m _ =>
        root_score_gt_negInf (MinimaxAgent.init d) (b.compute_game_state) m),
      ← List.length_eq_zero, ← List.length_eq_zero, hperm.length_eq]
  · intro m hm
    rw [get_best_move_eq] at hm
    rcases best_fold_shape (root_score (MinimaxAgent.init d) (b.compute_game_state))
        (order_moves ((b.compute_game_state).valid_moves (MinimaxAgent.init d).color))
        (Score.negInf, none) with h | ⟨x, hx, hh⟩
    · rw [hm] at h; cases h
    · rw [hm] at hh
      injection hh with hh
      exact hperm.subset (hh ▸ hx)

/-- Witness for C8: at the initial board with depth 2, the returned move is
the first Black pawn capture, and it is indeed a legal Black move. -/
theorem c8_get_best_move_none_iff_witness :
    (⟨bP, (1, 0), (2, 1), some wP⟩ : Move) ∈
      get_valid_moves_for_color initial_grid PieceColor.black :=
  (c8_get_best_move_none_iff 2 (Board.init initial_grid)).2 _ (by decide)

/-- C10: the constructor takes only a depth, fixing the agent's color to
Black; any non-`None` result of `get_best_move` is drawn from the board's
Black move list; and a minimizing ply of `minimax` enumerates the board's
White move list no matter which color the agent (the nominal maximizer)
carries — shown by the closed form of a depth-1 minimizing ply for an agent
of arbitrary color `c`, whose fold runs over `valid_moves WHITE`. -/
theorem c10_agent_hardwired_black (d : Int) :
    MinimaxAgent.init d = ⟨d, PieceColor.black⟩ ∧
    (∀ (b : Board) (m : Move),
      get_best_move (MinimaxAgent.init d) b = some m →
      m ∈ b.valid_moves PieceColor.black) ∧
    (∀ (c : PieceColor) (fuel : Nat) (b : Board) (alpha beta : Score),
      b.valid_moves PieceColor.white ≠ [] → b.valid_moves c ≠ [] →
      minimax ⟨d, c⟩ (fuel + 1 + 1) b false alpha beta 1 =
        ((b.valid_moves PieceColor.white).foldl
          (fun s move =>
            match s with
            | (min_eval, b2, true) => (min_eval, b2, true)
            | (min_eval, b2, false) =>
              let staged_eval := Score.fin (evaluate (b.apply_move move))
              let new_min := Score.min min_eval staged_eval
              let new_beta := Score.min b2 new_min
              (new_min, new_beta, Score.le new_beta alpha))
          (Score.posInf, beta, false)).1) := by
  refine ⟨rfl, ?_, ?_⟩
  · intro b m hm
    have hperm :
        List.Perm (order_moves (b.valid_moves (MinimaxAgent.init d).color))
          (b.valid_moves PieceColor.black) :=
      sort_desc_by_perm move_value _
    rw [get_best_move_eq] at hm
    rcases best_fold_shape (root_score (MinimaxAgent.init d) b)
        (order_moves (b.valid_moves (MinimaxAgent.init d).color))
        (Score.negInf, none) with h | ⟨x, hx, hh⟩
    · rw [hm] at h; cases h
    · rw [hm] at hh
      injection hh with hh
      exact hperm.subset (hh ▸ hx)
  · intro c fuel b alpha beta hwhite hc
    have hunfold :
        minimax ⟨d, c⟩ (fuel + 1 + 1) b false alpha beta 1 =
          if (1 : Int) = 0 then Score.fin (evaluate b)
          else if b.valid_moves PieceColor.white = [] then
            (if b.check_status PieceColor.white then Score.posInf
              else Score.fin 0)
          else if b.valid_moves (⟨d, c⟩ : MinimaxAgent).color = [] then
            (if b.check_status (⟨d, c⟩ : MinimaxAgent).color then Score.negInf
              else Score.fin 0)
          else
            ((b.valid_moves PieceColor.white).foldl
              (fun (s : Score × Score × Bool) (move : Move) =>
                match s with
                | (min_eval, b2, true) => (min_eval, b2, true)
                | (min_eval, b2, false) =>
                  let staged_board := b.apply_move move
                  let staged_eval :=
                    if staged_board.valid_moves (⟨d, c⟩ : MinimaxAgent).color = [] ∧
                        staged_board.check_status
                          (⟨d, c⟩ : MinimaxAgent).color then
                      Score.negInf
                    else
                      minimax ⟨d, c⟩ (fuel + 1) staged_board true alpha beta
                        (1 - 1)
                  let new_min := Score.min min_eval staged_eval
                  let new_beta := Score.min b2 new_min
                  (new_min, new_beta, Score.le new_beta alpha))
              (Score.posInf, beta, false)).1 := rfl
    have hc2 : ¬ b.valid_moves (⟨d, c⟩ : MinimaxAgent).color = [] := hc
    have hstep :
        (fun (s : Score × Score × Bool) (move : Move) =>
          match s with
          | (min_eval, b2, true) => (min_eval, b2, true)
          | (min_eval, b2, false) =>
            let staged_board := b.apply_move move
            let staged_eval :=
              if staged_board.valid_moves (⟨d, c⟩ : MinimaxAgent).color = [] ∧
                  staged_board.check_status (⟨d, c⟩ : MinimaxAgent).color then
                Score.negInf
              else
                minimax ⟨d, c⟩ (fuel + 1) staged_board true alpha beta (1 - 1)
            let new_min := Score.min min_eval staged_eval
            let new_beta := Score.min b2 new_min
            (new_min, new_beta, Score.le new_beta alpha)) =
        (fun (s : Score × Score × Bool) (move : Move) =>
          match s with
          | (min_eval, b2, true) => (min_eval, b2, true)
          | (min_eval, b2, false) =>
            let staged_eval := Score.fin (evaluate (b.apply_move move))
            let new_min := Score.min min_eval staged_eval
            let new_beta := Score.min b2 new_min
            (new_min, new_beta, Score.le new_beta alpha)) := by
      funext s move
      rcases s with ⟨e, b2, br⟩
      cases br
      · have hse :
            (if (b.apply_move move).valid_moves (⟨d, c⟩ : MinimaxAgent).color = [] ∧
                (b.apply_move move).check_status (⟨d, c⟩ : MinimaxAgent).color then
              Score.negInf
            else
              minimax ⟨d, c⟩ (fuel + 1) (b.apply_move move) true alpha beta
                (1 - 1)) =
            Score.fin (evaluate (b.apply_move move)) := by
          have hcond : ¬ ((b.apply_move move).valid_moves
              (⟨d, c⟩ : MinimaxAgent).color = [] ∧
              (b.apply_move move).check_status (⟨d, c⟩ : MinimaxAgent).color =
                true) := by
            rintro ⟨-, h2⟩
            have hcs : (b.apply_move move).check_status
                (⟨d, c⟩ : MinimaxAgent).color = false := rfl
            rw [hcs] at h2
            exact absurd h2 (by decide)
          rw [if_neg hcond, minimax_stale]
          simp
        dsimp only
        rw [hse]
      · rfl
    rw [hunfold, if_neg (by decide : ¬ ((1 : Int) = 0)), if_neg hwhite,
      if_neg hc2, hstep]

/-- Witness for C10 at depth 2: the initial board's first Black capture is a
legal Black move returned by the search machinery's membership part, and the
depth-1 minimizing-ply closed form applies to a White-colored agent on the
computed initial board, evaluating to the finite score `-4`. -/
theorem c10_agent_hardwired_black_witness :
    (⟨bP, (1, 0), (2, 1), some wP⟩ : Move) ∈
      ((Board.init initial_grid).compute_game_state).valid_moves
        PieceColor.black ∧
    minimax ⟨2, PieceColor.white⟩ (0 + 1 + 1)
        ((Board.init initial_grid).compute_game_state) false Score.negInf
        Score.posInf 1 = Score.fin (-4) := by
  constructor
  · exact (c10_agent_hardwired_black 2).2.1 _ _ (by decide)
  · rw [(c10_agent_hardwired_black 2).2.2 PieceColor.white 0
      ((Board.init initial_grid).compute_game_state) Score.negInf Score.posInf
      (by decide) (by decide)]
    decide

/-! Claim C1: soundness of the legal-move list. -/

theorem bounded_eq_some {n : Int} {i : Fin 4} :
    bounded n = some i ↔ (i : Int) = n := by
  unfold bounded
  split
  · rename_i h
    simp only [Option.some.injEq]
    constructor
    · rintro rfl
      show ((n.toNat : Nat) : Int) = n
      exact Int.toNat_of_nonneg h.1
    · intro h2
      apply Fin.ext
      show n.toNat = (i : Nat)
      omega
  · rename_i h
    constructor
    · rintro ⟨⟩
    · intro h2
      exfalso
      apply h
      have hlt := i.isLt
      constructor <;> omega

theorem to_pos_eq_some {z : Int × Int} {q : Pos} :
    to_pos z = some q ↔ (q.1 : Int) = z.1 ∧ (q.2 : Int) = z.2 := by
  unfold to_pos
  constructor
  · intro h
    rcases hz1 : bounded z.1 with - | r
    · rw [hz1] at h; cases h
    · rcases hz2 : bounded z.2 with - | c
      · rw [hz1, hz2] at h; cases h
      · rw [hz1, hz2] at h
        injection h with h
        subst h
        exact ⟨bounded_eq_some.mp hz1, bounded_eq_some.mp hz2⟩
  · rintro ⟨h1, h2⟩
    rw [bounded_eq_some.mpr h1, bounded_eq_some.mpr h2]

theorem mem_possible_moves {p : Piece} {a q : Pos} :
    q ∈ p.possible_moves a ↔
      ∃ d ∈ p.displacements,
        (q.1 : Int) = (a.1 : Int) + d.1 ∧ (q.2 : Int) = (a.2 : Int) + d.2 := by
  unfold Piece.possible_moves
  rw [List.mem_filterMap]
  constructor
  · rintro ⟨d, hd, hq⟩
    exact ⟨d, hd, to_pos_eq_some.mp hq⟩
  · rintro ⟨d, hd, hq⟩
    exact ⟨d, hd, to_pos_eq_some.mpr hq⟩

theorem displacement_line_all (p : Piece) :
    p.displacements.all (fun d =>
      decide ((d.1 = 0 ∨ d.2 = 0 ∨ d.1.natAbs = d.2.natAbs) ∧
        ¬ (d.1 = 0 ∧ d.2 = 0))) = true := by
  rcases p with ⟨pc, pt⟩
  cases pc <;> cases pt <;> decide

/-- Every movement template entry lies on a row, column or diagonal, and is
nonzero. -/
theorem displacement_line (p : Piece) (d : Int × Int)
    (hd : d ∈ p.displacements) :
    (d.1 = 0 ∨ d.2 = 0 ∨ d.1.natAbs = d.2.natAbs) ∧ ¬ (d.1 = 0 ∧ d.2 = 0) := by
  have h := displacement_line_all p
  rw [List.all_eq_true] at h
  exact of_decide_eq_true (h d hd)

theorem path_clear_loop_iff (g : Grid) (dr dc : Int)
    (hd : ¬ (dr = 0 ∧ dc = 0)) :
    ∀ (n : Nat) (fuel : Nat) (r c : Int), n ≤ fuel →
      (path_clear_loop g (r + (n : Int) * dr) (c + (n : Int) * dc) dr dc fuel
          r c = true ↔
        ∀ k : Int, 0 ≤ k → k < (n : Int) →
          (grid_at g (r + k * dr, c + k * dc)).piece_type =
            PieceType.empty) := by
  intro n
  induction n with
  | zero =>
    intro fuel r c _
    have h1 : r + ((0 : Nat) : Int) * dr = r := by push_cast; ring
    have h2 : c + ((0 : Nat) : Int) * dc = c := by push_cast; ring
    rw [h1, h2]
    constructor
    · intro _ k hk0 hkn
      exfalso
      omega
    · intro _
      cases fuel with
      | zero => rfl
      | succ f => simp [path_clear_loop]
  | succ n ih =>
    intro fuel r c hfuel
    obtain ⟨f, rfl⟩ : ∃ f, fuel = f + 1 := ⟨fuel - 1, by omega⟩
    have hne : ¬ (r = r + ((n + 1 : Nat) : Int) * dr ∧
        c = c + ((n + 1 : Nat) : Int) * dc) := by
      rintro ⟨h1, h2⟩
      apply hd
      have hn1 : ((n + 1 : Nat) : Int) ≠ 0 := by push_cast; omega
      constructor
      · rcases mul_eq_zero.mp (show ((n + 1 : Nat) : Int) * dr = 0 by omega) with
          h | h
        · exact absurd h hn1
        · exact h
      · rcases mul_eq_zero.mp (show ((n + 1 : Nat) : Int) * dc = 0 by omega) with
          h | h
        · exact absurd h hn1
        · exact h
    have hloop :
        path_clear_loop g (r + ((n + 1 : Nat) : Int) * dr)
            (c + ((n + 1 : Nat) : Int) * dc) dr dc (f + 1) r c =
          if (grid_at g (r, c)).piece_type ≠ PieceType.empty then false
          else
            path_clear_loop g (r + ((n + 1 : Nat) : Int) * dr)
              (c + ((n + 1 : Nat) : Int) * dc) dr dc f (r + dr) (c + dc) := by
      simp only [path_clear_loop]
      rw [if_neg hne]
    rw [hloop]
    by_cases hcell : (grid_at g (r, c)).piece_type = PieceType.empty
    · rw [if_neg (fun hh => hh hcell)]
      have hshift1 : r + ((n + 1 : Nat) : Int) * dr =
          (r + dr) + ((n : Nat) : Int) * dr := by push_cast; ring
      have hshift2 : c + ((n + 1 : Nat) : Int) * dc =
          (c + dc) + ((n : Nat) : Int) * dc := by push_cast; ring
      rw [hshift1, hshift2, ih f (r + dr) (c + dc) (by omega)]
      constructor
      · intro h k hk0 hkn
        by_cases hk : k = 0
        · subst hk
          have e1 : r + (0 : Int) * dr = r := by ring
          have e2 : c + (0 : Int) * dc = c := by ring
          rw [e1, e2]
          exact hcell
        · have h2 := h (k - 1) (by omega) (by push_cast at hkn ⊢; omega)
          have e1 : (r + dr) + (k - 1) * dr = r + k * dr := by ring
          have e2 : (c + dc) + (k - 1) * dc = c + k * dc := by ring
          rw [e1, e2] at h2
          exact h2
      · intro h k hk0 hkn
        have h2 := h (k + 1) (by omega) (by push_cast at hkn ⊢; omega)
        have e1 : r + (k + 1) * dr = (r + dr) + k * dr := by ring
        have e2 : c + (k + 1) * dc = (c + dc) + k * dc := by ring
        rw [e1, e2] at h2
        exact h2
    · rw [if_pos hcell]
      constructor
      · intro h
        cases h
      · intro h
        exfalso
        apply hcell
        have h0 := h 0 le_rfl (by push_cast; omega)
        have e1 : r + (0 : Int) * dr = r := by ring
        have e2 : c + (0 : Int) * dc = c := by ring
        rw [e1, e2] at h0
        exact h0

theorem sign_step_eq_zero {x y : Int} : sign_step x y = 0 ↔ y = x := by
  unfold sign_step
  split
  · rename_i h
    simp [h]
  · rename_i h
    split <;> simp [h]

/-- `is_path_clear` holds exactly when every intermediate square of the
straight or diagonal path is empty. -/
theorem is_path_clear_iff_cells (g : Grid) (a b : Pos)
    (hne : ¬ ((a.1 : Int) = (b.1 : Int) ∧ (a.2 : Int) = (b.2 : Int)))
    (hline : (b.1 : Int) - (a.1 : Int) = 0 ∨ (b.2 : Int) - (a.2 : Int) = 0 ∨
      ((b.1 : Int) - (a.1 : Int)).natAbs =
        ((b.2 : Int) - (a.2 : Int)).natAbs) :
    (is_path_clear g a.1 a.2 b.1 b.2 = true ↔
      ∀ q ∈ path_cells_spec a b,
        (grid_at g q).piece_type = PieceType.empty) := by
  have ha1 := a.1.isLt
  have ha2 := a.2.isLt
  have hb1 := b.1.isLt
  have hb2 := b.2.isLt
  have hle1 : ((b.1 : Int) - (a.1 : Int)).natAbs ≤ steps_between a b :=
    Nat.le_max_left _ _
  have hle2 : ((b.2 : Int) - (a.2 : Int)).natAbs ≤ steps_between a b :=
    Nat.le_max_right _ _
  have hchoice : steps_between a b = ((b.1 : Int) - (a.1 : Int)).natAbs ∨
      steps_between a b = ((b.2 : Int) - (a.2 : Int)).natAbs := by
    unfold steps_between
    rcases Nat.le_total (((b.1 : Int) - (a.1 : Int)).natAbs)
        (((b.2 : Int) - (a.2 : Int)).natAbs) with h | h
    · right
      exact Nat.max_eq_right h
    · left
      exact Nat.max_eq_left h
  have hcells : ∀ q : Int × Int, q ∈ path_cells_spec a b ↔
      ∃ j : Nat, j < steps_between a b - 1 ∧
        q = ((a.1 : Int) + ((j : Int) + 1) * sign_step (a.1 : Int) (b.1 : Int),
          (a.2 : Int) + ((j : Int) + 1) * sign_step (a.2 : Int) (b.2 : Int)) := by
    intro q
    constructor
    · intro hq
      have hq2 : q ∈ (List.range (steps_between a b - 1)).map
          (fun k : Nat =>
            ((a.1 : Int) + ((k : Int) + 1) * sign_step (a.1 : Int) (b.1 : Int),
              (a.2 : Int) + ((k : Int) + 1) *
                sign_step (a.2 : Int) (b.2 : Int))) := hq
      rcases List.mem_map.mp hq2 with ⟨j, hj, hfj⟩
      exact ⟨j, List.mem_range.mp hj, hfj.symm⟩
    · rintro ⟨j, hj, rfl⟩
      exact List.mem_map.mpr ⟨j, List.mem_range.mpr hj, rfl⟩
  have hrowaux : (b.1 : Int) - (a.1 : Int) = 0 ∨
      ((b.1 : Int) - (a.1 : Int)).natAbs = steps_between a b := by
    rcases hline with h | h | h <;> omega
  have hcolaux : (b.2 : Int) - (a.2 : Int) = 0 ∨
      ((b.2 : Int) - (a.2 : Int)).natAbs = steps_between a b := by
    rcases hline with h | h | h <;> omega
  have hn1 : 1 ≤ steps_between a b := by
    by_contra hcon
    apply hne
    constructor <;> omega
  have hn8 : steps_between a b ≤ 4 := by
    rcases hchoice with h | h <;> omega
  have hrow : (b.1 : Int) =
      (a.1 : Int) + (steps_between a b : Int) *
        sign_step (a.1 : Int) (b.1 : Int) := by
    unfold sign_step
    split
    · rename_i h
      simpa using h
    · rename_i h
      split
      · rename_i h2
        rcases hrowaux with h3 | h3 <;> omega
      · rename_i h2
        rcases hrowaux with h3 | h3 <;> omega
  have hcol : (b.2 : Int) =
      (a.2 : Int) + (steps_between a b : Int) *
        sign_step (a.2 : Int) (b.2 : Int) := by
    unfold sign_step
    split
    · rename_i h
      simpa using h
    · rename_i h
      split
      · rename_i h2
        rcases hcolaux with h3 | h3 <;> omega
      · rename_i h2
        rcases hcolaux with h3 | h3 <;> omega
  have hd : ¬ (sign_step (a.1 : Int) (b.1 : Int) = 0 ∧
      sign_step (a.2 : Int) (b.2 : Int) = 0) := by
    rintro ⟨h1, h2⟩
    exact hne ⟨(sign_step_eq_zero.mp h1).symm, (sign_step_eq_zero.mp h2).symm⟩
  have hcast : ((steps_between a b - 1 : Nat) : Int) =
      (steps_between a b : Int) - 1 := by
    omega
  have hmain := path_clear_loop_iff g (sign_step (a.1 : Int) (b.1 : Int))
    (sign_step (a.2 : Int) (b.2 : Int)) hd (steps_between a b - 1) 8
    ((a.1 : Int) + sign_step (a.1 : Int) (b.1 : Int))
    ((a.2 : Int) + sign_step (a.2 : Int) (b.2 : Int)) (by omega)
  have htar1 : ((a.1 : Int) + sign_step (a.1 : Int) (b.1 : Int)) +
      ((steps_between a b - 1 : Nat) : Int) *
        sign_step (a.1 : Int) (b.1 : Int) = (b.1 : Int) := by
    rw [hcast]
    linear_combination -hrow
  have htar2 : ((a.2 : Int) + sign_step (a.2 : Int) (b.2 : Int)) +
      ((steps_between a b - 1 : Nat) : Int) *
        sign_step (a.2 : Int) (b.2 : Int) = (b.2 : Int) := by
    rw [hcast]
    linear_combination -hcol
  rw [htar1, htar2] at hmain
  rw [show is_path_clear g a.1 a.2 b.1 b.2 =
    path_clear_loop g b.1 b.2 (sign_step (a.1 : Int) (b.1 : Int))
      (sign_step (a.2 : Int) (b.2 : Int)) 8
      ((a.1 : Int) + sign_step (a.1 : Int) (b.1 : Int))
      ((a.2 : Int) + sign_step (a.2 : Int) (b.2 : Int)) from rfl]
  rw [hmain]
  constructor
  · intro h q hq
    rcases (hcells q).mp hq with ⟨j, hj, rfl⟩
    have h2 := h (j : Int) (by omega) (by omega)
    have e1 : ((a.1 : Int) + sign_step (a.1 : Int) (b.1 : Int)) +
        (j : Int) * sign_step (a.1 : Int) (b.1 : Int) =
        (a.1 : Int) + ((j : Int) + 1) * sign_step (a.1 : Int) (b.1 : Int) := by
      ring
    have e2 : ((a.2 : Int) + sign_step (a.2 : Int) (b.2 : Int)) +
        (j : Int) * sign_step (a.2 : Int) (b.2 : Int) =
        (a.2 : Int) + ((j : Int) + 1) * sign_step (a.2 : Int) (b.2 : Int) := by
      ring
    rw [e1, e2] at h2
    exact h2
  · intro h k hk0 hkn
    have hk' : ((k.toNat : Nat) : Int) = k := Int.toNat_of_nonneg hk0
    have hjmem : ((a.1 : Int) + (((k.toNat : Nat) : Int) + 1) *
        sign_step (a.1 : Int) (b.1 : Int),
        (a.2 : Int) + (((k.toNat : Nat) : Int) + 1) *
          sign_step (a.2 : Int) (b.2 : Int)) ∈ path_cells_spec a b :=
      (hcells _).mpr ⟨k.toNat, by omega, rfl⟩
    have h2 := h _ hjmem
    have e1 : (a.1 : Int) + (((k.toNat : Nat) : Int) + 1) *
        sign_step (a.1 : Int) (b.1 : Int) =
        ((a.1 : Int) + sign_step (a.1 : Int) (b.1 : Int)) +
          k * sign_step (a.1 : Int) (b.1 : Int) := by
      rw [hk']
      ring
    have e2 : (a.2 : Int) + (((k.toNat : Nat) : Int) + 1) *
        sign_step (a.2 : Int) (b.2 : Int) =
        ((a.2 : Int) + sign_step (a.2 : Int) (b.2 : Int)) +
          k * sign_step (a.2 : Int) (b.2 : Int) := by
      rw [hk']
      ring
    rw [e1, e2] at h2
    exact h2

/-- C1 (counterexample): the sequence's within-mover destination order is
not the claimed fixed template order.  The program's `Piece.possible_moves`
returns a Python `set`, and the board iterates it in CPython's hash-table
order, modelled by `cpython_set_order`.  For the white pawn on square (1,0)
the destination set {(0,0),(0,1)} iterates as [(0,1),(0,0)], the reverse of
the template order, while its membership (here: up to permutation) is
unchanged. -/
theorem c1_counterexample_set_order :
    (cpython_set_order ((wP.possible_moves (1, 0)).map
        (fun q : Pos => ((q.1 : Nat), (q.2 : Nat)))) ≠
      (wP.possible_moves (1, 0)).map
        (fun q : Pos => ((q.1 : Nat), (q.2 : Nat)))) ∧
    List.Perm
      (cpython_set_order ((wP.possible_moves (1, 0)).map
        (fun q : Pos => ((q.1 : Nat), (q.2 : Nat)))))
      ((wP.possible_moves (1, 0)).map
        (fun q : Pos => ((q.1 : Nat), (q.2 : Nat)))) := by
  constructor
  · decide
  · decide

/-- C1 (amended): every move in the sequence returned by the legal-move
generator (i) has a destination reachable under the mover's clipped
template, (ii) never lands on a piece of the mover's color, (iii) for rook
and queen moves has every intermediate path square empty, (iv) for pawns
has an empty destination when moving straight and an opposing occupant when
moving diagonally, and (v) leaves the mover's own king unattacked; and a
move belongs to the sequence exactly when it belongs to the row-major
pseudo-legal generation filtered by the self-check test.  Only this
order-insensitive membership characterization is asserted: within one mover
the destinations follow the deterministic hash-table iteration order of the
Python set, not the template order (see `c1_counterexample_set_order`). -/
theorem c1_legal_moves_sound (b : Board) (color : PieceColor)
    (hc : color ≠ PieceColor.empty) :
    (∀ m ∈ (b.compute_game_state).valid_moves color,
      m.piece = b.grid m.from_pos ∧
      m.to_pos ∈ m.piece.possible_moves m.from_pos ∧
      ¬ ((b.grid m.to_pos).piece_type ≠ PieceType.empty ∧
        (b.grid m.to_pos).piece_color = color) ∧
      ((m.piece.piece_type = PieceType.rook ∨
          m.piece.piece_type = PieceType.queen) →
        ∀ q ∈ path_cells_spec m.from_pos m.to_pos,
          (grid_at b.grid q).piece_type = PieceType.empty) ∧
      (m.piece.piece_type = PieceType.pawn →
        ((m.to_pos.2 = m.from_pos.2 →
          (b.grid m.to_pos).piece_type = PieceType.empty) ∧
        (m.to_pos.2 ≠ m.from_pos.2 →
          (b.grid m.to_pos).piece_type ≠ PieceType.empty ∧
          (b.grid m.to_pos).piece_color ≠ m.piece.piece_color))) ∧
      is_check (apply_move_grid b.grid m) color = false) ∧
    (∀ m : Move, m ∈ (b.compute_game_state).valid_moves color ↔
      m ∈ (pseudo_legal_moves b.grid color).filter
        (fun mv => ! does_move_leave_king_in_check b.grid mv color)) := by
  constructor
  · intro m hm
    rw [cgs_valid_moves b color hc] at hm
    rcases mem_get_valid_moves.mp hm with
      ⟨hpc, hcap, hnemp, hcol, htp, hv, hchk⟩
    have htp' : m.to_pos ∈ m.piece.possible_moves m.from_pos := by
      rw [hpc]; exact htp
    have hfin : m.to_pos.2 = m.from_pos.2 ↔
        ((m.to_pos.2 : Int) - (m.from_pos.2 : Int) = 0) := by
      constructor
      · intro h
        rw [h]
        ring
      · intro h
        apply Fin.ext
        omega
    have hsliding :
        is_path_clear b.grid m.from_pos.1 m.from_pos.2 m.to_pos.1
            m.to_pos.2 = true →
        ∀ q ∈ path_cells_spec m.from_pos m.to_pos,
          (grid_at b.grid q).piece_type = PieceType.empty := by
      intro hclear
      rcases mem_possible_moves.mp htp with ⟨dd, hdd, he1, he2⟩
      have hline0 := displacement_line _ dd hdd
      refine (is_path_clear_iff_cells b.grid m.from_pos m.to_pos ?_ ?_).mp
        hclear
      · rintro ⟨h1, h2⟩
        apply hline0.2
        constructor <;> omega
      · rcases hline0.1 with h | h | h
        · left; omega
        · right; left; omega
        · right; right; omega
    refine ⟨hpc, htp', ?_⟩
    cases hty : (b.grid m.from_pos).piece_type with
    | empty => exact absurd hty hnemp
    | pawn =>
      have hv' : is_valid_pawn_move (b.grid m.from_pos) (b.grid m.to_pos)
          m.from_pos m.to_pos = true := by
        rw [is_valid_piece_move, hty] at hv
        exact hv
      rw [is_valid_pawn_move] at hv'
      by_cases hdc : ((m.to_pos.2 : Int) - (m.from_pos.2 : Int) = 0)
      · rw [if_pos hdc, decide_eq_true_eq] at hv'
        refine ⟨fun h => h.1 hv', ?_, ?_, hchk⟩
        · intro hkind
          exfalso
          rw [hpc, hty] at hkind
          rcases hkind with h | h <;> cases h
        · intro _
          exact ⟨fun _ => hv', fun hne2 => absurd (hfin.mpr hdc) hne2⟩
      · rw [if_neg hdc, decide_eq_true_eq] at hv'
        refine ⟨fun h => hv'.2 (h.2.trans hcol.symm), ?_, ?_, hchk⟩
        · intro hkind
          exfalso
          rw [hpc, hty] at hkind
          rcases hkind with h | h <;> cases h
        · intro _
          refine ⟨fun heq => absurd (hfin.mp heq) hdc, fun _ => ⟨hv'.1, ?_⟩⟩
          rw [hpc]
          exact hv'.2
    | rook =>
      have hv' : is_valid_rook_move b.grid (b.grid m.from_pos)
          (b.grid m.to_pos) m.from_pos m.to_pos = true := by
        rw [is_valid_piece_move, hty] at hv
        exact hv
      rw [is_valid_rook_move] at hv'
      by_cases hsame : (b.grid m.to_pos).piece_color =
          (b.grid m.from_pos).piece_color
      · rw [if_pos hsame] at hv'
        cases hv'
      · rw [if_neg hsame] at hv'
        refine ⟨fun h => hsame (h.2.trans hcol.symm), fun _ => hsliding hv',
          ?_, hchk⟩
        intro hkind
        exfalso
        rw [hpc, hty] at hkind
        cases hkind
    | queen =>
      have hv' : is_valid_queen_move b.grid (b.grid m.from_pos)
          (b.grid m.to_pos) m.from_pos m.to_pos = true := by
        rw [is_valid_piece_move, hty] at hv
        exact hv
      rw [is_valid_queen_move] at hv'
      by_cases hsame : (b.grid m.to_pos).piece_color =
          (b.grid m.from_pos).piece_color
      · rw [if_pos hsame] at hv'
        cases hv'
      · rw [if_neg hsame] at hv'
        refine ⟨fun h => hsame (h.2.trans hcol.symm), fun _ => hsliding hv',
          ?_, hchk⟩
        intro hkind
        exfalso
        rw [hpc, hty] at hkind
        cases hkind
    | king =>
      have hv' : is_valid_king_move (b.grid m.from_pos) (b.grid m.to_pos) =
          true := by
        rw [is_valid_piece_move, hty] at hv
        exact hv
      rw [is_valid_king_move, decide_eq_true_eq] at hv'
      refine ⟨fun h => hv' (h.2.trans hcol.symm), ?_, ?_, hchk⟩
      · intro hkind
        exfalso
        rw [hpc, hty] at hkind
        rcases hkind with h | h <;> cases h
      · intro hkind
        exfalso
        rw [hpc, hty] at hkind
        cases hkind
  · intro m
    rw [cgs_valid_moves b color hc, get_valid_eq_filter_pseudo b.grid color]

/-- Witness for C1 at the initial board and color Black: the membership
characterization and the self-check condition, both at the first Black pawn
capture. -/
theorem c1_legal_moves_sound_witness :
    PieceColor.black ≠ PieceColor.empty ∧
    ((⟨bP, (1, 0), (2, 1), some wP⟩ : Move) ∈
        ((Board.init initial_grid).compute_game_state).valid_moves
          PieceColor.black ↔
      (⟨bP, (1, 0), (2, 1), some wP⟩ : Move) ∈
        (pseudo_legal_moves (Board.init initial_grid).grid
            PieceColor.black).filter
          (fun mv => ! does_move_leave_king_in_check
            (Board.init initial_grid).grid mv PieceColor.black)) ∧
    is_check
        (apply_move_grid (Board.init initial_grid).grid
          ⟨bP, (1, 0), (2, 1), some wP⟩) PieceColor.black = false :=
  ⟨by decide,
    (c1_legal_moves_sound (Board.init initial_grid) PieceColor.black
      (by decide)).2 ⟨bP, (1, 0), (2, 1), some wP⟩,
    ((c1_legal_moves_sound (Board.init initial_grid) PieceColor.black
      (by decide)).1 ⟨bP, (1, 0), (2, 1), some wP⟩
      (by decide)).2.2.2.2.2⟩

/-! Claim C6: color-mirror antisymmetry of the evaluator. -/

theorem bool_eq_of_iff {a b : Bool} (h : a = true ↔ b = true) : a = b := by
  cases a <;> cases b <;> simp_all

theorem flip_flip (p : Pos) : flip_pos (flip_pos p) = p := by
  revert p; decide

theorem flip_fin_int (i : Fin 4) : ((3 - i : Fin 4) : Int) = 3 - (i : Int) := by
  revert i; decide

theorem flip_pos_row_int (p : Pos) : ((flip_pos p).1 : Int) = 3 - (p.1 : Int) :=
  flip_fin_int p.1

theorem flip_pos_col (p : Pos) : (flip_pos p).2 = p.2 := rfl

theorem swap_color_swap_color (c : PieceColor) :
    swap_color (swap_color c) = c := by
  cases c <;> rfl

theorem swap_color_inj {c d : PieceColor} (h : swap_color c = swap_color d) :
    c = d := by
  have := congrArg swap_color h
  rwa [swap_color_swap_color, swap_color_swap_color] at this

theorem swap_piece_swap_piece (x : Piece) : swap_piece (swap_piece x) = x := by
  rcases x with ⟨xc, xt⟩
  simp [swap_piece, swap_color_swap_color]

theorem swap_piece_type (x : Piece) :
    (swap_piece x).piece_type = x.piece_type := rfl

theorem swap_piece_value (x : Piece) : (swap_piece x).value = x.value := rfl

theorem swap_piece_color (x : Piece) :
    (swap_piece x).piece_color = swap_color x.piece_color := rfl

theorem swap_piece_empty : swap_piece empty_piece = empty_piece := rfl

theorem swap_piece_inj {x y : Piece} (h : swap_piece x = swap_piece y) :
    x = y := by
  have := congrArg swap_piece h
  rwa [swap_piece_swap_piece, swap_piece_swap_piece] at this

theorem mirror_grid_apply (g : Grid) (p : Pos) :
    mirror_grid g p = swap_piece (g (flip_pos p)) := rfl

theorem mirror_grid_flip (g : Grid) (p : Pos) :
    mirror_grid g (flip_pos p) = swap_piece (g p) := by
  rw [mirror_grid_apply, flip_flip]

theorem mirror_move_mirror_move (m : Move) :
    mirror_move (mirror_move m) = m := by
  rcases m with ⟨mp, mf, mt, mc⟩
  simp only [mirror_move, swap_piece_swap_piece, flip_flip]
  rcases mc with - | cp
  · rfl
  · simp [swap_piece_swap_piece]

theorem grid_at_mirror (g : Grid) (z : Int × Int) :
    grid_at (mirror_grid g) z = swap_piece (grid_at g (3 - z.1, z.2)) := by
  unfold grid_at
  rcases hq : to_pos z with - | q
  · rcases hq2 : to_pos (3 - z.1, z.2) with - | q2
    · rfl
    · exfalso
      rcases to_pos_eq_some.mp hq2 with ⟨h1, h2⟩
      have : to_pos z = some (flip_pos q2) := by
        apply to_pos_eq_some.mpr
        constructor
        · rw [flip_pos_row_int]
          omega
        · rw [flip_pos_col]
          exact h2
      rw [hq] at this
      cases this
  · have hq2 : to_pos (3 - z.1, z.2) = some (flip_pos q) := by
      rcases to_pos_eq_some.mp hq with ⟨h1, h2⟩
      apply to_pos_eq_some.mpr
      constructor
      · rw [flip_pos_row_int]
        omega
      · rw [flip_pos_col]
        exact h2
    rw [hq2]
    show mirror_grid g q = swap_piece (g (flip_pos q))
    rfl

theorem sign_step_flip (x y : Int) :
    sign_step (3 - x) (3 - y) = - sign_step x y := by
  unfold sign_step
  by_cases h1 : y = x
  · rw [if_pos h1, if_pos (by omega)]
    norm_num
  · rw [if_neg h1, if_neg (show ¬ ((3 - y) = (3 - x)) by omega)]
    by_cases h2 : x < y
    · rw [if_pos h2, if_neg (show ¬ ((3 - x) < (3 - y)) by omega)]
    · rw [if_neg h2, if_pos (show (3 - x) < (3 - y) by omega)]
      norm_num

theorem path_clear_loop_mirror (g : Grid) (tr tc dr dc : Int) :
    ∀ (fuel : Nat) (r c : Int),
      path_clear_loop (mirror_grid g) tr tc dr dc fuel r c =
        path_clear_loop g (3 - tr) tc (-dr) dc fuel (3 - r) c := by
  intro fuel
  induction fuel with
  | zero => intro r c; rfl
  | succ f ih =>
    intro r c
    show (if r = tr ∧ c = tc then true
      else if (grid_at (mirror_grid g) (r, c)).piece_type ≠ PieceType.empty
        then false
      else path_clear_loop (mirror_grid g) tr tc dr dc f (r + dr) (c + dc)) =
      (if 3 - r = 3 - tr ∧ c = tc then true
      else if (grid_at g (3 - r, c)).piece_type ≠ PieceType.empty then false
      else path_clear_loop g (3 - tr) tc (-dr) dc f (3 - r + -dr) (c + dc))
    by_cases h1 : r = tr ∧ c = tc
    · rw [if_pos h1, if_pos (by omega)]
    · rw [if_neg h1, if_neg (show ¬ (3 - r = 3 - tr ∧ c = tc) by omega)]
      have hcell : (grid_at (mirror_grid g) (r, c)).piece_type =
          (grid_at g (3 - r, c)).piece_type := by
        rw [grid_at_mirror, swap_piece_type]
      rw [hcell]
      by_cases h2 : (grid_at g (3 - r, c)).piece_type = PieceType.empty
      · rw [if_neg (fun hh => hh h2), if_neg (fun hh => hh h2), ih]
        have : (3 : Int) - (r + dr) = 3 - r + -dr := by ring
        rw [this]
      · rw [if_pos h2, if_pos h2]

theorem is_path_clear_mirror (g : Grid) (fr fc tr tc : Int) :
    is_path_clear (mirror_grid g) fr fc tr tc =
      is_path_clear g (3 - fr) fc (3 - tr) tc := by
  show path_clear_loop (mirror_grid g) tr tc (sign_step fr tr)
      (sign_step fc tc) 8 (fr + sign_step fr tr) (fc + sign_step fc tc) = _
  rw [path_clear_loop_mirror]
  show _ = path_clear_loop g (3 - tr) tc (sign_step (3 - fr) (3 - tr))
    (sign_step fc tc) 8 ((3 - fr) + sign_step (3 - fr) (3 - tr))
    (fc + sign_step fc tc)
  rw [sign_step_flip]
  have : (3 : Int) - (fr + sign_step fr tr) = 3 - fr + -sign_step fr tr := by
    ring
  rw [this]

theorem displacements_swap_all (p : Piece) :
    ((swap_piece p).displacements.all fun d =>
      decide ((-d.1, d.2) ∈ p.displacements)) = true ∧
    (p.displacements.all fun d =>
      decide ((-d.1, d.2) ∈ (swap_piece p).displacements)) = true := by
  rcases p with ⟨pc, pt⟩
  cases pc <;> cases pt <;> exact ⟨by decide, by decide⟩

theorem mem_displacements_swap {p : Piece} {d : Int × Int} :
    d ∈ (swap_piece p).displacements ↔ (-d.1, d.2) ∈ p.displacements := by
  constructor
  · intro hd
    exact of_decide_eq_true
      (List.all_eq_true.mp (displacements_swap_all p).1 d hd)
  · intro hd
    have h2 := of_decide_eq_true
      (List.all_eq_true.mp (displacements_swap_all p).2 _ hd)
    simpa using h2

theorem possible_moves_mirror (p : Piece) (a q : Pos) :
    q ∈ (swap_piece p).possible_moves (flip_pos a) ↔
      flip_pos q ∈ p.possible_moves a := by
  rw [mem_possible_moves, mem_possible_moves]
  constructor
  · rintro ⟨d, hd, h1, h2⟩
    rw [flip_pos_row_int] at h1
    rw [flip_pos_col] at h2
    refine ⟨(-d.1, d.2), mem_displacements_swap.mp hd, ?_, ?_⟩
    · show ((flip_pos q).1 : Int) = (a.1 : Int) + -d.1
      rw [flip_pos_row_int]
      omega
    · show ((flip_pos q).2 : Int) = (a.2 : Int) + d.2
      rw [flip_pos_col]
      exact h2
  · rintro ⟨d, hd, h1, h2⟩
    rw [flip_pos_row_int] at h1
    rw [flip_pos_col] at h2
    refine ⟨(-d.1, d.2), ?_, ?_, ?_⟩
    · rw [mem_displacements_swap]
      simpa using hd
    · show (q.1 : Int) = ((flip_pos a).1 : Int) + -d.1
      rw [flip_pos_row_int]
      omega
    · show (q.2 : Int) = ((flip_pos a).2 : Int) + d.2
      rw [flip_pos_col]
      exact h2

theorem is_valid_piece_move_mirror (g : Grid) (p t : Piece) (a q : Pos) :
    is_valid_piece_move (mirror_grid g) (swap_piece p) (swap_piece t)
        (flip_pos a) (flip_pos q) =
      is_valid_piece_move g p t a q := by
  rcases hty : p.piece_type
  case empty =>
    rw [is_valid_piece_move, is_valid_piece_move, swap_piece_type, hty]
  case pawn =>
    rw [is_valid_piece_move, is_valid_piece_move, swap_piece_type, hty]
    show is_valid_pawn_move (swap_piece p) (swap_piece t) (flip_pos a)
        (flip_pos q) = is_valid_pawn_move p t a q
    unfold is_valid_pawn_move
    rw [flip_pos_col, flip_pos_col]
    by_cases hdc : ((q.2 : Int) - (a.2 : Int) = 0)
    · rw [if_pos hdc, if_pos hdc, swap_piece_type]
    · rw [if_neg hdc, if_neg hdc]
      apply bool_eq_of_iff
      rw [decide_eq_true_eq, decide_eq_true_eq, swap_piece_type,
        swap_piece_color, swap_piece_color]
      constructor
      · rintro ⟨h1, h2⟩
        exact ⟨h1, fun hh => h2 (by rw [hh])⟩
      · rintro ⟨h1, h2⟩
        exact ⟨h1, fun hh => h2 (swap_color_inj hh)⟩
  case rook =>
    rw [is_valid_piece_move, is_valid_piece_move, swap_piece_type, hty]
    show is_valid_rook_move (mirror_grid g) (swap_piece p) (swap_piece t)
        (flip_pos a) (flip_pos q) = is_valid_rook_move g p t a q
    unfold is_valid_rook_move
    rw [swap_piece_color, swap_piece_color]
    by_cases hcc : t.piece_color = p.piece_color
    · rw [if_pos (by rw [hcc]), if_pos hcc]
    · rw [if_neg (fun hh => hcc (swap_color_inj hh)), if_neg hcc]
      rw [flip_pos_row_int, flip_pos_row_int, flip_pos_col, flip_pos_col,
        is_path_clear_mirror]
      have e1 : (3 : Int) - (3 - (a.1 : Int)) = (a.1 : Int) := by ring
      have e2 : (3 : Int) - (3 - (q.1 : Int)) = (q.1 : Int) := by ring
      rw [e1, e2]
  case queen =>
    rw [is_valid_piece_move, is_valid_piece_move, swap_piece_type, hty]
    show is_valid_queen_move (mirror_grid g) (swap_piece p) (swap_piece t)
        (flip_pos a) (flip_pos q) = is_valid_queen_move g p t a q
    unfold is_valid_queen_move
    rw [swap_piece_color, swap_piece_color]
    by_cases hcc : t.piece_color = p.piece_color
    · rw [if_pos (by rw [hcc]), if_pos hcc]
    · rw [if_neg (fun hh => hcc (swap_color_inj hh)), if_neg hcc]
      rw [flip_pos_row_int, flip_pos_row_int, flip_pos_col, flip_pos_col,
        is_path_clear_mirror]
      have e1 : (3 : Int) - (3 - (a.1 : Int)) = (a.1 : Int) := by ring
      have e2 : (3 : Int) - (3 - (q.1 : Int)) = (q.1 : Int) := by ring
      rw [e1, e2]
  case king =>
    rw [is_valid_piece_move, is_valid_piece_move, swap_piece_type, hty]
    show is_valid_king_move (swap_piece p) (swap_piece t) =
        is_valid_king_move p t
    unfold is_valid_king_move
    apply bool_eq_of_iff
    rw [decide_eq_true_eq, decide_eq_true_eq, swap_piece_color,
      swap_piece_color]
    constructor
    · intro h hh
      exact h (by rw [hh])
    · intro h hh
      exact h (swap_color_inj hh)

theorem can_attack_mirror (g : Grid) (a q : Pos) (p : Piece)
    (hpc : p.piece_color ≠ PieceColor.empty) :
    can_attack (mirror_grid g) (flip_pos a) (flip_pos q) (swap_piece p) =
      can_attack g a q p := by
  obtain ⟨pc, pt⟩ := p
  cases pt
  case empty => rfl
  case pawn =>
    show can_pawn_attack (swap_piece ⟨pc, PieceType.pawn⟩) (flip_pos a)
        (flip_pos q) = can_pawn_attack ⟨pc, PieceType.pawn⟩ a q
    apply bool_eq_of_iff
    simp only [can_pawn_attack, decide_eq_true_eq, flip_pos_row_int,
      flip_pos_col, swap_piece_color]
    cases pc
    case empty => exact absurd rfl hpc
    case white =>
      simp only [swap_color, reduceIte]
      rw [if_neg (by decide : ¬ (PieceColor.black = PieceColor.white))]
      omega
    case black =>
      simp only [swap_color, reduceIte]
      rw [if_neg (by decide : ¬ (PieceColor.black = PieceColor.white))]
      omega
  case rook =>
    show can_rook_attack (mirror_grid g) (swap_piece ⟨pc, PieceType.rook⟩)
        (flip_pos a) (flip_pos q) =
      can_rook_attack g ⟨pc, PieceType.rook⟩ a q
    set p : Piece := ⟨pc, PieceType.rook⟩
    unfold can_rook_attack
    by_cases hmem : q ∈ p.possible_moves a
    · have hmem' : flip_pos q ∈ (swap_piece p).possible_moves (flip_pos a) :=
        (possible_moves_mirror p a (flip_pos q)).mpr
          (by rw [flip_flip]; exact hmem)
      rw [if_neg (fun hh => hh hmem'), if_neg (fun hh => hh hmem)]
      rw [flip_pos_row_int, flip_pos_row_int, flip_pos_col, flip_pos_col,
        is_path_clear_mirror]
      have e1 : (3 : Int) - (3 - (a.1 : Int)) = (a.1 : Int) := by ring
      have e2 : (3 : Int) - (3 - (q.1 : Int)) = (q.1 : Int) := by ring
      rw [e1, e2]
    · have hmem' : ¬ flip_pos q ∈ (swap_piece p).possible_moves (flip_pos a) := by
        intro hh
        apply hmem
        have := (possible_moves_mirror p a (flip_pos q)).mp hh
        rwa [flip_flip] at this
      rw [if_pos hmem', if_pos hmem]
  case queen =>
    show can_queen_attack (mirror_grid g) (swap_piece ⟨pc, PieceType.queen⟩)
        (flip_pos a) (flip_pos q) =
      can_queen_attack g ⟨pc, PieceType.queen⟩ a q
    set p : Piece := ⟨pc, PieceType.queen⟩
    unfold can_queen_attack
    by_cases hmem : q ∈ p.possible_moves a
    · have hmem' : flip_pos q ∈ (swap_piece p).possible_moves (flip_pos a) :=
        (possible_moves_mirror p a (flip_pos q)).mpr
          (by rw [flip_flip]; exact hmem)
      rw [if_neg (fun hh => hh hmem'), if_neg (fun hh => hh hmem)]
      rw [flip_pos_row_int, flip_pos_row_int, flip_pos_col, flip_pos_col,
        is_path_clear_mirror]
      have e1 : (3 : Int) - (3 - (a.1 : Int)) = (a.1 : Int) := by ring
      have e2 : (3 : Int) - (3 - (q.1 : Int)) = (q.1 : Int) := by ring
      rw [e1, e2]
    · have hmem' : ¬ flip_pos q ∈ (swap_piece p).possible_moves (flip_pos a) := by
        intro hh
        apply hmem
        have := (possible_moves_mirror p a (flip_pos q)).mp hh
        rwa [flip_flip] at this
      rw [if_pos hmem', if_pos hmem]
  case king =>
    show can_king_attack (swap_piece ⟨pc, PieceType.king⟩) (flip_pos a)
        (flip_pos q) = can_king_attack ⟨pc, PieceType.king⟩ a q
    set p : Piece := ⟨pc, PieceType.king⟩
    unfold can_king_attack
    apply bool_eq_of_iff
    rw [decide_eq_true_eq, decide_eq_true_eq]
    rw [possible_moves_mirror p a (flip_pos q), flip_flip]

theorem get_opponent_color_swap (c : PieceColor)
    (hc : c ≠ PieceColor.empty) :
    get_opponent_color (swap_color c) = swap_color (get_opponent_color c) := by
  cases c with
  | empty => exact absurd rfl hc
  | white => rfl
  | black => rfl

theorem get_opponent_color_ne_empty (c : PieceColor) :
    get_opponent_color c ≠ PieceColor.empty := by
  cases c <;> decide

theorem is_position_threatened_mirror (g : Grid) (pos : Pos)
    (c : PieceColor) (hc : c ≠ PieceColor.empty) :
    is_position_threatened (mirror_grid g) (flip_pos pos) (swap_color c) =
      is_position_threatened g pos c := by
  apply bool_eq_of_iff
  unfold is_position_threatened
  rw [List.any_eq_true, List.any_eq_true]
  constructor
  · rintro ⟨p, -, hp⟩
    rw [decide_eq_true_eq] at hp
    rcases hp with ⟨h1, h2, h3⟩
    refine ⟨flip_pos p, mem_positions _, ?_⟩
    rw [decide_eq_true_eq]
    have hpe : mirror_grid g p = swap_piece (g (flip_pos p)) :=
      mirror_grid_apply g p
    rw [hpe, swap_piece_type] at h1
    rw [hpe, swap_piece_color, get_opponent_color_swap c hc] at h2
    have h2' : (g (flip_pos p)).piece_color = get_opponent_color c :=
      swap_color_inj h2
    refine ⟨h1, h2', ?_⟩
    have h3' :
        can_attack (mirror_grid g) (flip_pos (flip_pos p)) (flip_pos pos)
          (swap_piece (g (flip_pos p))) = true := by
      rw [flip_flip, ← hpe]
      exact h3
    rw [can_attack_mirror g (flip_pos p) pos (g (flip_pos p))
      (by rw [h2']; exact get_opponent_color_ne_empty c)] at h3'
    exact h3'
  · rintro ⟨p, -, hp⟩
    rw [decide_eq_true_eq] at hp
    rcases hp with ⟨h1, h2, h3⟩
    refine ⟨flip_pos p, mem_positions _, ?_⟩
    rw [decide_eq_true_eq]
    have hpe : mirror_grid g (flip_pos p) = swap_piece (g p) :=
      mirror_grid_flip g p
    have hgp : (g p).piece_color ≠ PieceColor.empty := by
      rw [h2]
      exact get_opponent_color_ne_empty c
    refine ⟨?_, ?_, ?_⟩
    · rw [hpe, swap_piece_type]
      exact h1
    · rw [hpe, swap_piece_color, get_opponent_color_swap c hc, h2]
    · rw [hpe, can_attack_mirror g p pos (g p) hgp]
      exact h3

theorem king_at_mirror (g : Grid) (c : PieceColor) (p : Pos) :
    king_at (mirror_grid g) (swap_color c) p ↔ king_at g c (flip_pos p) := by
  unfold king_at
  rw [mirror_grid_apply, swap_piece_type, swap_piece_color]
  constructor
  · rintro ⟨h1, h2⟩
    exact ⟨h1, swap_color_inj h2⟩
  · rintro ⟨h1, h2⟩
    exact ⟨h1, by rw [h2]⟩

theorem at_most_one_king_mirror (g : Grid) (c : PieceColor)
    (hk : at_most_one_king g c) :
    at_most_one_king (mirror_grid g) (swap_color c) := by
  intro p q hp hq
  have h1 := (king_at_mirror g c p).mp hp
  have h2 := (king_at_mirror g c q).mp hq
  have := hk _ _ h1 h2
  have h3 := congrArg flip_pos this
  rwa [flip_flip, flip_flip] at h3

theorem find_king_eq_some_iff (g : Grid) (c : PieceColor) (p : Pos)
    (hk : at_most_one_king g c) :
    find_king_position g c = some p ↔ king_at g c p := by
  constructor
  · intro h
    have h2 := List.find?_some h
    rw [decide_eq_true_eq] at h2
    exact h2
  · intro h
    rcases hf : find_king_position g c with - | q
    · exfalso
      have h2 := List.find?_eq_none.mp hf p (mem_positions p)
      rw [decide_eq_true_eq] at h2
      exact h2 h
    · have hq := List.find?_some hf
      rw [decide_eq_true_eq] at hq
      rw [hk q p hq h]

theorem find_king_mirror (g : Grid) (c : PieceColor)
    (hk : at_most_one_king g c) :
    find_king_position (mirror_grid g) (swap_color c) =
      Option.map flip_pos (find_king_position g c) := by
  rcases hf : find_king_position g c with - | p
  · rcases hf2 : find_king_position (mirror_grid g) (swap_color c) with - | q
    · rfl
    · exfalso
      have hq := List.find?_some hf2
      rw [decide_eq_true_eq] at hq
      have h2 := (king_at_mirror g c q).mp hq
      have h3 := List.find?_eq_none.mp hf (flip_pos q) (mem_positions _)
      rw [decide_eq_true_eq] at h3
      exact h3 h2
  · have hp := (find_king_eq_some_iff g c p hk).mp hf
    have hp' : king_at (mirror_grid g) (swap_color c) (flip_pos p) := by
      rw [king_at_mirror, flip_flip]
      exact hp
    rw [(find_king_eq_some_iff (mirror_grid g) (swap_color c) (flip_pos p)
      (at_most_one_king_mirror g c hk)).mpr hp']
    rfl

theorem is_check_mirror (g : Grid) (c : PieceColor)
    (hc : c ≠ PieceColor.empty) (hk : at_most_one_king g c) :
    is_check (mirror_grid g) (swap_color c) = is_check g c := by
  unfold is_check
  rw [find_king_mirror g c hk]
  rcases hf : find_king_position g c with - | p
  · rfl
  · show is_position_threatened (mirror_grid g) (flip_pos p) (swap_color c) =
      is_position_threatened g p c
    exact is_position_threatened_mirror g p c hc

theorem apply_move_grid_mirror (g : Grid) (m : Move) :
    apply_move_grid (mirror_grid g) (mirror_move m) =
      mirror_grid (apply_move_grid g m) := by
  funext p
  show (if p = flip_pos m.to_pos then swap_piece m.piece
    else if p = flip_pos m.from_pos then empty_piece
    else mirror_grid g p) =
    swap_piece (if flip_pos p = m.to_pos then m.piece
      else if flip_pos p = m.from_pos then empty_piece
      else g (flip_pos p))
  have hiff1 : p = flip_pos m.to_pos ↔ flip_pos p = m.to_pos := by
    constructor
    · intro h
      rw [h, flip_flip]
    · intro h
      rw [← h, flip_flip]
  have hiff2 : p = flip_pos m.from_pos ↔ flip_pos p = m.from_pos := by
    constructor
    · intro h
      rw [h, flip_flip]
    · intro h
      rw [← h, flip_flip]
  by_cases h1 : p = flip_pos m.to_pos
  · rw [if_pos h1, if_pos (hiff1.mp h1)]
  · rw [if_neg h1, if_neg (fun hh => h1 (hiff1.mpr hh))]
    by_cases h2 : p = flip_pos m.from_pos
    · rw [if_pos h2, if_pos (hiff2.mp h2), swap_piece_empty]
    · rw [if_neg h2, if_neg (fun hh => h2 (hiff2.mpr hh))]
      rfl

theorem at_most_one_king_apply (g : Grid) (c : PieceColor) (m : Move)
    (hk : at_most_one_king g c) (hpc : m.piece = g m.from_pos) :
    at_most_one_king (apply_move_grid g m) c := by
  intro p q hp hq
  have hcase : ∀ r : Pos, king_at (apply_move_grid g m) c r →
      (r = m.to_pos ∧ king_at g c m.from_pos) ∨
        (r ≠ m.to_pos ∧ r ≠ m.from_pos ∧ king_at g c r) := by
    intro r hr
    unfold king_at at hr
    unfold apply_move_grid at hr
    by_cases h1 : r = m.to_pos
    · rw [if_pos h1] at hr
      left
      rw [hpc] at hr
      exact ⟨h1, hr⟩
    · rw [if_neg h1] at hr
      by_cases h2 : r = m.from_pos
      · rw [if_pos h2] at hr
        rcases hr with ⟨hr1, -⟩
        cases hr1
      · rw [if_neg h2] at hr
        exact Or.inr ⟨h1, h2, hr⟩
  rcases hcase p hp with ⟨hp1, hp2⟩ | ⟨hp1, hp2, hp3⟩ <;>
    rcases hcase q hq with ⟨hq1, hq2⟩ | ⟨hq1, hq2, hq3⟩
  · rw [hp1, hq1]
  · exfalso
    exact hq2 (hk q m.from_pos hq3 hp2)
  · exfalso
    exact hp2 (hk p m.from_pos hp3 hq2)
  · exact hk p q hp3 hq3

/-- Legal moves correspond one-to-one under color mirroring, provided the
mover's color has at most one king (the self-check filter depends on the
first king found in scan order). -/
theorem mem_valid_moves_mirror (g : Grid) (c : PieceColor)
    (hc : c ≠ PieceColor.empty) (hk : at_most_one_king g c) (m : Move) :
    mirror_move m ∈ get_valid_moves_for_color (mirror_grid g) (swap_color c) ↔
      m ∈ get_valid_moves_for_color g c := by
  rw [mem_get_valid_moves, mem_get_valid_moves]
  have hfm : (mirror_move m).from_pos = flip_pos m.from_pos := rfl
  have htm : (mirror_move m).to_pos = flip_pos m.to_pos := rfl
  have hpm : (mirror_move m).piece = swap_piece m.piece := rfl
  have hcm : (mirror_move m).captured_piece =
      m.captured_piece.map swap_piece := rfl
  rw [hfm, htm, hpm, hcm, mirror_grid_flip, mirror_grid_flip]
  constructor
  · rintro ⟨h1, h2, h3, h4, h5, h6, h7⟩
    have h1' : m.piece = g m.from_pos := swap_piece_inj h1
    have h2' : m.captured_piece = some (g m.to_pos) := by
      rcases hcp : m.captured_piece with - | x
      · rw [hcp] at h2
        simp at h2
      · rw [hcp] at h2
        simp only [Option.map_some'] at h2
        injection h2 with h2
        rw [swap_piece_inj h2]
    have h3' : ¬ (g m.from_pos).piece_type = PieceType.empty := by
      rw [swap_piece_type] at h3
      exact h3
    have h4' : (g m.from_pos).piece_color = c := by
      rw [swap_piece_color] at h4
      exact swap_color_inj h4
    have h5' : m.to_pos ∈ (g m.from_pos).possible_moves m.from_pos := by
      have h := (possible_moves_mirror (g m.from_pos) m.from_pos
        (flip_pos m.to_pos)).mp h5
      rwa [flip_flip] at h
    have h6' : is_valid_piece_move g (g m.from_pos) (g m.to_pos) m.from_pos
        m.to_pos = true := by
      rw [← is_valid_piece_move_mirror g (g m.from_pos) (g m.to_pos)
        m.from_pos m.to_pos]
      exact h6
    have h7' : does_move_leave_king_in_check g m c = false := by
      rw [← h7]
      show is_check (apply_move_grid g m) c =
        is_check (apply_move_grid (mirror_grid g) (mirror_move m))
          (swap_color c)
      rw [apply_move_grid_mirror]
      exact (is_check_mirror (apply_move_grid g m) c hc
        (at_most_one_king_apply g c m hk h1')).symm
    exact ⟨h1', h2', h3', h4', h5', h6', h7'⟩
  · rintro ⟨h1, h2, h3, h4, h5, h6, h7⟩
    refine ⟨?_, ?_, ?_, ?_, ?_, ?_, ?_⟩
    · rw [h1]
    · rw [h2]
      rfl
    · rw [swap_piece_type]
      exact h3
    · rw [swap_piece_color, h4]
    · exact (possible_moves_mirror (g m.from_pos) m.from_pos
        (flip_pos m.to_pos)).mpr (by rw [flip_flip]; exact h5)
    · rw [is_valid_piece_move_mirror]
      exact h6
    · show is_check
        (apply_move_grid (mirror_grid g) (mirror_move m)) (swap_color c) =
          false
      rw [apply_move_grid_mirror,
        is_check_mirror (apply_move_grid g m) c hc
          (at_most_one_king_apply g c m hk h1)]
      exact h7

theorem dedup_first_aux {α : Type} [DecidableEq α] (l : List α) :
    ∀ acc : List α,
      (∀ x, x ∈ l.foldl
        (fun acc a => if a ∈ acc then acc else acc ++ [a]) acc ↔
          x ∈ acc ∨ x ∈ l) ∧
      (acc.Nodup →
        (l.foldl (fun acc a => if a ∈ acc then acc else acc ++ [a])
          acc).Nodup) := by
  induction l with
  | nil =>
    intro acc
    constructor
    · intro x
      simp
    · intro h
      exact h
  | cons a t ih =>
    intro acc
    constructor
    · intro x
      show x ∈ t.foldl _ (if a ∈ acc then acc else acc ++ [a]) ↔ _
      rw [(ih _).1 x]
      by_cases ha : a ∈ acc
      · rw [if_pos ha]
        simp only [List.mem_cons]
        constructor
        · rintro (h | h)
          · exact Or.inl h
          · exact Or.inr (Or.inr h)
        · rintro (h | rfl | h)
          · exact Or.inl h
          · exact Or.inl ha
          · exact Or.inr h
      · rw [if_neg ha]
        simp only [List.mem_append, List.mem_singleton, List.mem_cons]
        tauto
    · intro hacc
      show (t.foldl _ (if a ∈ acc then acc else acc ++ [a])).Nodup
      apply (ih _).2
      by_cases ha : a ∈ acc
      · rw [if_pos ha]
        exact hacc
      · rw [if_neg ha]
        rw [List.nodup_append]
        refine ⟨hacc, List.nodup_singleton a, ?_⟩
        intro x hx
        simp only [List.mem_singleton]
        rintro rfl
        exact ha hx

theorem mem_dedup_first {α : Type} [DecidableEq α] (l : List α) (x : α) :
    x ∈ dedup_first l ↔ x ∈ l := by
  unfold dedup_first
  rw [(dedup_first_aux l []).1 x]
  simp

theorem nodup_dedup_first {α : Type} [DecidableEq α] (l : List α) :
    (dedup_first l).Nodup :=
  (dedup_first_aux l []).2 List.nodup_nil

theorem swap_color_eq_iff (x c : PieceColor) :
    swap_color x = c ↔ x = swap_color c := by
  cases x <;> cases c <;> decide

theorem positions_map_flip_perm : List.Perm (positions.map flip_pos) positions := by
  decide

theorem sum_map_flip (f : Pos → Int) :
    (positions.map fun p => f (flip_pos p)).sum = (positions.map f).sum := by
  have h1 : (positions.map fun p => f (flip_pos p)) =
      (positions.map flip_pos).map f := by
    rw [List.map_map]
    rfl
  rw [h1]
  exact (positions_map_flip_perm.map f).sum_eq

theorem presence_score_mirror (g : Grid) (c : PieceColor) :
    presence_score (mirror_grid g) c = presence_score g (swap_color c) := by
  unfold presence_score
  rw [← sum_map_flip (fun p =>
    if ¬ (g p).piece_type = PieceType.empty ∧
        (g p).piece_color = swap_color c then
      (g p).value
    else 0)]
  apply congrArg List.sum
  apply List.map_congr_left
  intro p _
  rw [mirror_grid_apply, swap_piece_type, swap_piece_color, swap_piece_value]
  apply if_congr _ rfl rfl
  rw [swap_color_eq_iff]

theorem center_positions_flip (p : Pos) :
    flip_pos p ∈ center_positions ↔ p ∈ center_positions := by
  revert p
  decide

theorem center_score_mirror (g : Grid) (c : PieceColor) :
    center_score (mirror_grid g) c = center_score g (swap_color c) := by
  unfold center_score
  calc (positions.map fun p =>
        if ¬ (mirror_grid g p).piece_type = PieceType.empty ∧
            (mirror_grid g p).piece_color = c ∧ p ∈ center_positions then
          (mirror_grid g p).value
        else 0).sum
      = (positions.map fun p =>
          (fun q : Pos =>
            if ¬ (g q).piece_type = PieceType.empty ∧
                (g q).piece_color = swap_color c ∧ q ∈ center_positions then
              (g q).value
            else 0) (flip_pos p)).sum := by
        apply congrArg List.sum
        apply List.map_congr_left
        intro p _
        show (if ¬ (mirror_grid g p).piece_type = PieceType.empty ∧
            (mirror_grid g p).piece_color = c ∧ p ∈ center_positions then
          (mirror_grid g p).value else 0) =
          (if ¬ (g (flip_pos p)).piece_type = PieceType.empty ∧
              (g (flip_pos p)).piece_color = swap_color c ∧
              flip_pos p ∈ center_positions then
            (g (flip_pos p)).value else 0)
        rw [mirror_grid_apply, swap_piece_type, swap_piece_color,
          swap_piece_value]
        apply if_congr _ rfl rfl
        rw [swap_color_eq_iff, center_positions_flip]
    _ = _ := sum_map_flip (fun q : Pos =>
        if ¬ (g q).piece_type = PieceType.empty ∧
            (g q).piece_color = swap_color c ∧ q ∈ center_positions then
          (g q).value
        else 0)

theorem is_capture_mirror (m : Move) :
    is_capture (mirror_move m) = is_capture m := by
  obtain ⟨pc, fp, tp, cp⟩ := m
  rcases cp with - | x
  · rfl
  · show is_capture ⟨swap_piece pc, flip_pos fp, flip_pos tp,
      some (swap_piece x)⟩ = _
    unfold is_capture
    show decide (¬ (swap_piece x).piece_type = PieceType.empty) =
      decide (¬ x.piece_type = PieceType.empty)
    rw [swap_piece_type]

theorem mem_captured_positions_mirror (g : Grid) (c : PieceColor)
    (hc : c ≠ PieceColor.empty) (hk : at_most_one_king g c) (p : Pos) :
    (p ∈ captured_positions
        (get_valid_moves_for_color (mirror_grid g) (swap_color c))) ↔
      flip_pos p ∈ captured_positions (get_valid_moves_for_color g c) := by
  unfold captured_positions
  rw [mem_dedup_first, mem_dedup_first, List.mem_map, List.mem_map]
  constructor
  · rintro ⟨mv, hmv, hto⟩
    rw [List.mem_filter] at hmv
    refine ⟨mirror_move mv, ?_, ?_⟩
    · rw [List.mem_filter]
      refine ⟨?_, ?_⟩
      · apply (mem_valid_moves_mirror g c hc hk (mirror_move mv)).mp
        rw [mirror_move_mirror_move]
        exact hmv.1
      · rw [is_capture_mirror]
        exact hmv.2
    · show flip_pos mv.to_pos = flip_pos p
      rw [hto]
  · rintro ⟨mv, hmv, hto⟩
    rw [List.mem_filter] at hmv
    refine ⟨mirror_move mv, ?_, ?_⟩
    · rw [List.mem_filter]
      refine ⟨(mem_valid_moves_mirror g c hc hk mv).mpr hmv.1, ?_⟩
      rw [is_capture_mirror]
      exact hmv.2
    · show flip_pos mv.to_pos = p
      rw [hto, flip_flip]

theorem flip_pos_injective : Function.Injective flip_pos := by
  intro a b h
  have h2 := congrArg flip_pos h
  rwa [flip_flip, flip_flip] at h2

theorem threat_sum_mirror (g : Grid) (c : PieceColor)
    (hc : c ≠ PieceColor.empty) (hk : at_most_one_king g c) :
    (((captured_positions
          (get_valid_moves_for_color (mirror_grid g) (swap_color c))).map
        (mirror_grid g)).map Piece.value).sum =
      (((captured_positions (get_valid_moves_for_color g c)).map g).map
        Piece.value).sum := by
  rw [List.map_map, List.map_map]
  have hperm : List.Perm
      (captured_positions
        (get_valid_moves_for_color (mirror_grid g) (swap_color c)))
      ((captured_positions (get_valid_moves_for_color g c)).map flip_pos) := by
    refine (List.perm_ext_iff_of_nodup (nodup_dedup_first _)
      ((nodup_dedup_first _).map flip_pos_injective)).mpr ?_
    intro p
    rw [List.mem_map]
    constructor
    · intro hp
      exact ⟨flip_pos p, (mem_captured_positions_mirror g c hc hk p).mp hp,
        flip_flip p⟩
    · rintro ⟨q, hq, rfl⟩
      apply (mem_captured_positions_mirror g c hc hk (flip_pos q)).mpr
      rwa [flip_flip]
  calc ((captured_positions
          (get_valid_moves_for_color (mirror_grid g) (swap_color c))).map
        (Piece.value ∘ mirror_grid g)).sum
      = (((captured_positions (get_valid_moves_for_color g c)).map
          flip_pos).map (Piece.value ∘ mirror_grid g)).sum :=
        (hperm.map (Piece.value ∘ mirror_grid g)).sum_eq
    _ = ((captured_positions (get_valid_moves_for_color g c)).map
          ((Piece.value ∘ mirror_grid g) ∘ flip_pos)).sum := by
        rw [List.map_map]
    _ = _ := by
        apply congrArg List.sum
        apply List.map_congr_left
        intro q _
        show (mirror_grid g (flip_pos q)).value = (g q).value
        rw [mirror_grid_flip, swap_piece_value]

theorem evaluate_init (g : Grid) :
    evaluate ((Board.init g).compute_game_state) =
      (presence_score g PieceColor.black
        + (SILVERMAN_DEFAULT_START_SCORES PieceColor.white
            - presence_score g PieceColor.white)
        + center_score g PieceColor.black
        + (((captured_positions
              (get_valid_moves_for_color g PieceColor.black)).map g).map
            Piece.value).sum)
      - (presence_score g PieceColor.white
        + (SILVERMAN_DEFAULT_START_SCORES PieceColor.black
            - presence_score g PieceColor.black)
        + center_score g PieceColor.white
        + (((captured_positions
              (get_valid_moves_for_color g PieceColor.white)).map g).map
            Piece.value).sum) := rfl

/-- C6 (counterexample): zero-sum symmetry under color exchange fails on a
degenerate board holding two White kings.  On `grid_two_kings` the evaluator
scores the board and its color-mirrored counterpart (both with computed game
state) as `-3004` and `3003`, which are not exact negations: the legal-move
generator keys the self-check filter to the first king found in scan order,
and mirroring changes which king that is. -/
theorem c6_counterexample_two_kings :
    ¬ (evaluate ((Board.init (mirror_grid grid_two_kings)).compute_game_state)
        = - evaluate ((Board.init grid_two_kings).compute_game_state)) := by
  decide

/-- C6 (amended): for every board whose grid holds at most one king of each
color, the evaluator's score of the board with computed game state and the
score of its color-mirrored counterpart (piece colors swapped and ranks
reversed) with computed game state are exact negations of one another. -/
theorem c6_evaluate_mirror_antisymm (g : Grid)
    (hkw : at_most_one_king g PieceColor.white)
    (hkb : at_most_one_king g PieceColor.black) :
    evaluate ((Board.init (mirror_grid g)).compute_game_state) =
      - evaluate ((Board.init g).compute_game_state) := by
  rw [evaluate_init, evaluate_init]
  have hpw : presence_score (mirror_grid g) PieceColor.white =
      presence_score g PieceColor.black :=
    presence_score_mirror g PieceColor.white
  have hpb : presence_score (mirror_grid g) PieceColor.black =
      presence_score g PieceColor.white :=
    presence_score_mirror g PieceColor.black
  have hcw : center_score (mirror_grid g) PieceColor.white =
      center_score g PieceColor.black :=
    center_score_mirror g PieceColor.white
  have hcb : center_score (mirror_grid g) PieceColor.black =
      center_score g PieceColor.white :=
    center_score_mirror g PieceColor.black
  have htb : (((captured_positions
        (get_valid_moves_for_color (mirror_grid g) PieceColor.black)).map
      (mirror_grid g)).map Piece.value).sum =
      (((captured_positions
          (get_valid_moves_for_color g PieceColor.white)).map g).map
        Piece.value).sum :=
    threat_sum_mirror g PieceColor.white (by decide) hkw
  have htw : (((captured_positions
        (get_valid_moves_for_color (mirror_grid g) PieceColor.white)).map
      (mirror_grid g)).map Piece.value).sum =
      (((captured_positions
          (get_valid_moves_for_color g PieceColor.black)).map g).map
        Piece.value).sum :=
    threat_sum_mirror g PieceColor.black (by decide) hkb
  rw [hpw, hpb, hcw, hcb, htb, htw]
  simp only [SILVERMAN_DEFAULT_START_SCORES]
  ring

theorem c6_evaluate_mirror_antisymm_witness :
    evaluate ((Board.init (mirror_grid initial_grid)).compute_game_state) =
      - evaluate ((Board.init initial_grid).compute_game_state) :=
  c6_evaluate_mirror_antisymm initial_grid
    (by unfold at_most_one_king king_at; decide)
    (by unfold at_most_one_king king_at; decide)

end MiniChess
